import Mathlib

/-!
Verification of the vgmck-rs MML-to-VGM compiler.

Each Rust function under scrutiny is shallowly embedded as an executable
Lean definition.  Machine integers are modelled as Nat or Int with explicit
wrap-around where the Rust code can overflow; fallible code returns Option
or Except.  Floating-point computations (note-frequency tables) are not
modelled; instead their results are universally quantified, so every
theorem about downstream code holds for whatever values the float code
produced.
-/

namespace Vgmck

/-! ## VGM delay commands (src/vgm/delay.rs) -/

/-- Opcode 0x61: wait nnnn samples (16-bit little-endian operand). -/
def WAIT_NNNN : Nat := 0x61

/-- Opcode 0x62: wait 735 samples (1/60 second at 44100 Hz). -/
def WAIT_60TH : Nat := 0x62

/-- Opcode 0x63: wait 882 samples (1/50 second at 44100 Hz). -/
def WAIT_50TH : Nat := 0x63

/-- Opcode 0x66: end of sound data. -/
def CMD_END : Nat := 0x66

/-- Opcode base 0x70: wait n+1 samples (n = 0..15). -/
def WAIT_N_BASE : Nat := 0x70

/-- Embedding of `generate_delay` (src/vgm/delay.rs lines 20-63).  The Rust
loop subtracts from `duration` and pushes opcode bytes; here each loop
iteration is a recursive call, and the pushed bytes are accumulated in a
list.  `duration` is a `u64` in Rust; the reachable callers pass values far
below 2^64 and the function never overflows, so Nat is a faithful model. -/
def generate_delay (duration : Nat) : List Nat :=
  if h0 : duration = 0 then []
  else if h1 : (735 ≤ duration ∧ duration ≤ 751) ∨ duration = 1470 ∨ duration = 1617 ∨
      (65536 ≤ duration ∧ duration ≤ 67152) then
    WAIT_60TH :: generate_delay (duration - 735)
  else if h2 : (882 ≤ duration ∧ duration ≤ 898) ∨ duration = 1764 ∨
      (67153 ≤ duration ∧ duration ≤ 67299) then
    WAIT_50TH :: generate_delay (duration - 882)
  else if h3 : duration ≤ 16 then
    [WAIT_N_BASE + duration - 1]
  else if h4 : duration ≤ 32 then
    (WAIT_N_BASE + 15) :: generate_delay (duration - 16)
  else if h5 : duration ≤ 65535 then
    [WAIT_NNNN, duration % 256, duration / 256 % 256]
  else
    WAIT_NNNN :: 0xFF :: 0xFF :: generate_delay (duration - 65535)
termination_by duration
decreasing_by
  all_goals omega

mutual

/-- VGM wait-command semantics, taken from the claim (and the VGM format):
0x62 waits 735 samples, 0x63 waits 882, 0x70+n waits n+1 (n in 0..15),
0x61 lo hi waits lo + 256*hi.  Returns none on any other byte; the 16-bit
operand of 0x61 is decoded by the helper decode_long below. -/
def decode_waits : List Nat → Option Nat
  | [] => some 0
  | b :: rest =>
    if b = WAIT_60TH then (decode_waits rest).map (fun r => 735 + r)
    else if b = WAIT_50TH then (decode_waits rest).map (fun r => 882 + r)
    else if WAIT_N_BASE ≤ b ∧ b ≤ WAIT_N_BASE + 15 then
      (decode_waits rest).map (fun r => (b - WAIT_N_BASE + 1) + r)
    else if b = WAIT_NNNN then decode_long rest
    else none
termination_by l => l.length

/-- Operand of a 0x61 wait: two bytes little-endian, then the rest. -/
def decode_long : List Nat → Option Nat
  | lo :: hi :: rest2 => (decode_waits rest2).map (fun r => lo + 256 * hi + r)
  | _ => none
termination_by l => l.length

end

theorem decode_waits_60 (l : List Nat) :
    decode_waits (WAIT_60TH :: l) = (decode_waits l).map (fun r => 735 + r) := by
  rw [decode_waits]
  rw [if_pos rfl]

theorem decode_waits_50 (l : List Nat) :
    decode_waits (WAIT_50TH :: l) = (decode_waits l).map (fun r => 882 + r) := by
  rw [decode_waits]
  rw [if_neg (by decide), if_pos rfl]

theorem decode_waits_short (b : Nat) (l : List Nat) (hb : 0x70 ≤ b) (hb2 : b ≤ 0x7F) :
    decode_waits (b :: l) = (decode_waits l).map (fun r => (b - 0x70 + 1) + r) := by
  rw [decode_waits]
  rw [if_neg (by simp [WAIT_60TH]; omega), if_neg (by simp [WAIT_50TH]; omega),
    if_pos (by constructor <;> simp [WAIT_N_BASE] <;> omega)]
  rfl

theorem decode_waits_long (lo hi : Nat) (l : List Nat) :
    decode_waits (WAIT_NNNN :: lo :: hi :: l) =
      (decode_waits l).map (fun r => lo + 256 * hi + r) := by
  rw [decode_waits]
  rw [if_neg (by decide), if_neg (by decide), if_neg (by decide), if_pos rfl]
  rw [decode_long]

/-- Every delay command list produced by `generate_delay` decodes to exactly
the requested duration, for all durations (in particular for the claimed
range 0..200000). -/
theorem decode_generate_delay (d : Nat) : decode_waits (generate_delay d) = some d := by
  induction d using Nat.strong_induction_on with
  | _ d ih =>
    unfold generate_delay
    split
    · rename_i h0
      subst h0
      rw [decode_waits]
    split
    · rename_i h0 h1
      rw [decode_waits_60, ih (d - 735) (by omega)]
      simp only [Option.map_some', Option.some.injEq]
      omega
    split
    · rename_i h0 h1 h2
      rw [decode_waits_50, ih (d - 882) (by omega)]
      simp only [Option.map_some', Option.some.injEq]
      omega
    split
    · rename_i h0 h1 h2 h3
      rw [show WAIT_N_BASE + d - 1 = 0x70 + (d - 1) by simp [WAIT_N_BASE]; omega]
      rw [decode_waits_short (0x70 + (d - 1)) [] (by omega) (by omega)]
      simp [decode_waits]
      omega
    split
    · rename_i h0 h1 h2 h3 h4
      rw [show WAIT_N_BASE + 15 = 0x7F by rfl]
      rw [decode_waits_short 0x7F _ (by omega) (by omega)]
      rw [ih (d - 16) (by omega)]
      simp only [Option.map_some', Option.some.injEq]
      omega
    split
    · rename_i h0 h1 h2 h3 h4 h5
      rw [decode_waits_long]
      simp [decode_waits]
      omega
    · rename_i h0 h1 h2 h3 h4 h5
      rw [show (0xFF : Nat) = 255 by rfl]
      rw [decode_waits_long 255 255 _]
      rw [ih (d - 65535) (by omega)]
      simp only [Option.map_some', Option.some.injEq]
      omega

/-- C1: for every sample count d with 0 ≤ d ≤ 200000, the byte sequence
returned by `generate_delay d` decodes, under VGM wait-command semantics,
to a total wait of exactly d samples; and `generate_delay 0 = []`. -/
theorem C1_generate_delay_exact :
    (∀ d : Nat, d ≤ 200000 → decode_waits (generate_delay d) = some d) ∧
      generate_delay 0 = [] := by
  refine ⟨fun d _ => decode_generate_delay d, by unfold generate_delay; simp⟩

/-- Witness: the theorem applied at the concrete inputs d = 1000 and d = 0. -/
theorem C1_generate_delay_exact_witness :
    decode_waits (generate_delay 1000) = some 1000 ∧ generate_delay 0 = [] :=
  ⟨C1_generate_delay_exact.1 1000 (by decide), C1_generate_delay_exact.2⟩

end Vgmck

namespace Vgmck

/-! ## VGM header (src/vgm/header.rs) -/

/-- Header size in bytes (VGM_MAX_HEADER = 48 words of 4 bytes). -/
def VGM_HEADER_SIZE : Nat := 192

/-- VGM file version written by this tool. -/
def VGM_VERSION : Nat := 0x161

/-- The j-th byte of the little-endian encoding of a value. -/
def leByte (value j : Nat) : Nat := value / 256 ^ j % 256

/-- The fixed 192-byte header shadow, modelled as a byte-valued function;
only indices below VGM_HEADER_SIZE are ever read or written. -/
structure VgmHeader where
  data : Nat → Nat

/-- Embedding of `VgmHeader::write_u8`: bounds-guarded single-byte store. -/
def VgmHeader.write_u8 (h : VgmHeader) (offset value : Nat) : VgmHeader :=
  if offset < VGM_HEADER_SIZE then
    { data := fun i => if i = offset then value % 256 else h.data i }
  else h

/-- Embedding of `VgmHeader::write_u16`: bounds-guarded two-byte LE store. -/
def VgmHeader.write_u16 (h : VgmHeader) (offset value : Nat) : VgmHeader :=
  if offset + 1 < VGM_HEADER_SIZE then
    { data := fun i =>
        if offset ≤ i ∧ i < offset + 2 then leByte value (i - offset) else h.data i }
  else h

/-- Embedding of `VgmHeader::write_u32`: bounds-guarded four-byte LE store. -/
def VgmHeader.write_u32 (h : VgmHeader) (offset value : Nat) : VgmHeader :=
  if offset + 3 < VGM_HEADER_SIZE then
    { data := fun i =>
        if offset ≤ i ∧ i < offset + 4 then leByte value (i - offset) else h.data i }
  else h

/-- Embedding of `VgmHeader::new`: zero-filled header, magic bytes of
the string Vgm followed by a space, version, and data offset. -/
def VgmHeader.new : VgmHeader :=
  let h0 : VgmHeader := { data := fun _ => 0 }
  let h1 : VgmHeader :=
    { data := fun i =>
        if i = 0 then 0x56 else if i = 1 then 0x67 else if i = 2 then 0x6D
        else if i = 3 then 0x20 else h0.data i }
  (h1.write_u32 0x08 VGM_VERSION).write_u32 0x34 (VGM_HEADER_SIZE - 0x34)

/-- Little-endian read of a 32-bit header field. -/
def VgmHeader.readU32 (h : VgmHeader) (offset : Nat) : Nat :=
  h.data offset + 256 * h.data (offset + 1) + 256 ^ 2 * h.data (offset + 2) +
    256 ^ 3 * h.data (offset + 3)

/-- The 192 header bytes in file order. -/
def VgmHeader.bytes (h : VgmHeader) : List Nat :=
  (List.range VGM_HEADER_SIZE).map h.data

theorem VgmHeader.length_bytes (h : VgmHeader) : h.bytes.length = 192 := by
  simp [VgmHeader.bytes, VGM_HEADER_SIZE]

theorem VgmHeader.readU32_write_u32 (h : VgmHeader) (offset value : Nat)
    (hoff : offset + 3 < 192) :
    (h.write_u32 offset value).readU32 offset = value % 2 ^ 32 := by
  simp only [VgmHeader.write_u32, VGM_HEADER_SIZE, hoff, if_pos, VgmHeader.readU32]
  rw [if_pos (by omega), if_pos (by omega), if_pos (by omega), if_pos (by omega)]
  simp only [Nat.sub_self, leByte]
  rw [show offset + 1 - offset = 1 by omega, show offset + 2 - offset = 2 by omega,
    show offset + 3 - offset = 3 by omega]
  simp [leByte]
  omega

theorem VgmHeader.readU32_write_u32_other (h : VgmHeader) (offset value o2 : Nat)
    (hdisj : o2 + 4 ≤ offset ∨ offset + 4 ≤ o2) :
    (h.write_u32 offset value).readU32 o2 = h.readU32 o2 := by
  unfold VgmHeader.write_u32
  split
  · simp only [VgmHeader.readU32]
    rw [if_neg (by omega), if_neg (by omega), if_neg (by omega), if_neg (by omega)]
  · rfl

theorem VgmHeader.data_write_u32_other (h : VgmHeader) (offset value i : Nat)
    (hdisj : i < offset ∨ offset + 4 ≤ i) :
    (h.write_u32 offset value).data i = h.data i := by
  unfold VgmHeader.write_u32
  split
  · simp only
    rw [if_neg (by omega)]
  · rfl

end Vgmck

namespace Vgmck

/-- C10: header stores are bounds-guarded and frame-preserving.  For every
header h, offset o and value v: an out-of-range `write_u32` (o + 3 ≥ 192) is
a total no-op, and an in-range one sets exactly bytes o..o+4 to the
little-endian encoding of v, leaving every other byte unchanged; `write_u8`
and `write_u16` behave the same way at widths 1 and 2. -/
theorem C10_header_write_frame (h : VgmHeader) (offset value : Nat) :
    (¬ offset + 3 < 192 → h.write_u32 offset value = h) ∧
    (offset + 3 < 192 →
      (∀ i, offset ≤ i → i < offset + 4 →
        (h.write_u32 offset value).data i = leByte value (i - offset)) ∧
      (∀ i, i < offset ∨ offset + 4 ≤ i →
        (h.write_u32 offset value).data i = h.data i)) ∧
    (¬ offset + 1 < 192 → h.write_u16 offset value = h) ∧
    (offset + 1 < 192 →
      (∀ i, offset ≤ i → i < offset + 2 →
        (h.write_u16 offset value).data i = leByte value (i - offset)) ∧
      (∀ i, i < offset ∨ offset + 2 ≤ i →
        (h.write_u16 offset value).data i = h.data i)) ∧
    (¬ offset < 192 → h.write_u8 offset value = h) ∧
    (offset < 192 →
      ((h.write_u8 offset value).data offset = leByte value 0) ∧
      (∀ i, i ≠ offset → (h.write_u8 offset value).data i = h.data i)) := by
  refine ⟨fun hge => ?_, fun hlt => ⟨fun i h1 h2 => ?_, fun i hd => ?_⟩,
    fun hge => ?_, fun hlt => ⟨fun i h1 h2 => ?_, fun i hd => ?_⟩,
    fun hge => ?_, fun hlt => ⟨?_, fun i hd => ?_⟩⟩
  · unfold VgmHeader.write_u32
    rw [if_neg (by simpa [VGM_HEADER_SIZE] using hge)]
  · unfold VgmHeader.write_u32
    rw [if_pos (by simpa [VGM_HEADER_SIZE] using hlt)]
    simp only
    rw [if_pos (by omega)]
  · unfold VgmHeader.write_u32
    rw [if_pos (by simpa [VGM_HEADER_SIZE] using hlt)]
    simp only
    rw [if_neg (by omega)]
  · unfold VgmHeader.write_u16
    rw [if_neg (by simpa [VGM_HEADER_SIZE] using hge)]
  · unfold VgmHeader.write_u16
    rw [if_pos (by simpa [VGM_HEADER_SIZE] using hlt)]
    simp only
    rw [if_pos (by omega)]
  · unfold VgmHeader.write_u16
    rw [if_pos (by simpa [VGM_HEADER_SIZE] using hlt)]
    simp only
    rw [if_neg (by omega)]
  · unfold VgmHeader.write_u8
    rw [if_neg (by simpa [VGM_HEADER_SIZE] using hge)]
  · unfold VgmHeader.write_u8
    rw [if_pos (by simpa [VGM_HEADER_SIZE] using hlt)]
    simp [leByte]
  · unfold VgmHeader.write_u8
    rw [if_pos (by simpa [VGM_HEADER_SIZE] using hlt)]
    simp only
    rw [if_neg hd]

/-- Witness: the frame theorem applied to the all-zero header at the
in-range offset 0x18 and the out-of-range offset 190. -/
theorem C10_header_write_frame_witness :
    (({ data := fun _ => 0 } : VgmHeader).write_u32 0x18 22050).data 0x18 = leByte 22050 0 ∧
    ({ data := fun _ => 0 } : VgmHeader).write_u32 190 7 = { data := fun _ => 0 } := by
  have main := C10_header_write_frame ({ data := fun _ => 0 } : VgmHeader) 0x18 22050
  have main2 := C10_header_write_frame ({ data := fun _ => 0 } : VgmHeader) 190 7
  exact ⟨(main.2.1 (by omega)).1 0x18 (by omega) (by omega),
    main2.1 (by omega)⟩

end Vgmck

namespace Vgmck

/-! ## GD3 metadata block (src/vgm/gd3.rs) -/

/-- The eleven GD3 text fields (src/compiler/mod.rs `Gd3Metadata`), each a
sequence of unicode scalar values like a Rust `String`. -/
structure Gd3Metadata where
  title_en : List Char
  title_jp : List Char
  game_en : List Char
  game_jp : List Char
  system_en : List Char
  system_jp : List Char
  composer_en : List Char
  composer_jp : List Char
  date : List Char
  converter : List Char
  notes : List Char

/-- GD3 tag magic bytes (the ASCII codes of G, d, 3, space). -/
def GD3_MAGIC : List Nat := [0x47, 0x64, 0x33, 0x20]

/-- GD3 version 1.0. -/
def GD3_VERSION : Nat := 0x100

/-- Four little-endian bytes of a 32-bit value. -/
def leBytes4 (v : Nat) : List Nat := [leByte v 0, leByte v 1, leByte v 2, leByte v 3]

/-- Embedding of the per-character encoder inside `write_utf16_string`
(src/vgm/gd3.rs lines 60-77): BMP scalars become one little-endian UTF-16
code unit, others a surrogate pair. -/
def write_utf16_char (c : Char) : List Nat :=
  let code := c.toNat
  if code ≤ 0xFFFF then
    [code % 256, code / 256 % 256]
  else
    let code2 := code - 0x10000
    let high := 0xD800 + ((code2 >>> 10) &&& 0x3FF)
    let low := 0xDC00 + (code2 &&& 0x3FF)
    [high % 256, high / 256 % 256, low % 256, low / 256 % 256]

/-- Embedding of `write_utf16_string`: every character encoded in order,
then a two-byte null terminator. -/
def write_utf16_string (s : List Char) : List Nat :=
  (s.map write_utf16_char).flatten ++ [0, 0]

/-- The string region of the GD3 block: the eleven fields encoded in the
fixed order of src/vgm/gd3.rs lines 40-50. -/
def gd3_strings (m : Gd3Metadata) : List Nat :=
  write_utf16_string m.title_en ++ write_utf16_string m.title_jp ++
  write_utf16_string m.game_en ++ write_utf16_string m.game_jp ++
  write_utf16_string m.system_en ++ write_utf16_string m.system_jp ++
  write_utf16_string m.composer_en ++ write_utf16_string m.composer_jp ++
  write_utf16_string m.date ++ write_utf16_string m.converter ++
  write_utf16_string m.notes

/-- Embedding of `generate_gd3` (src/vgm/gd3.rs lines 12-57): magic,
version, a four-byte size placeholder, the string region, then the
placeholder at position 8 is patched with the string-region byte length
cast to u32. -/
def generate_gd3 (m : Gd3Metadata) : List Nat :=
  let data0 := GD3_MAGIC ++ leBytes4 GD3_VERSION ++ leBytes4 0 ++ gd3_strings m
  let strings_size := (gd3_strings m).length % 2 ^ 32
  data0.take 8 ++ leBytes4 strings_size ++ data0.drop 12

/-- Decoder used by the claim: UTF-16LE code units up to the first NUL,
each unit read as one scalar (sufficient for the ASCII round-trip the
claim states). -/
def utf16_decode_z : List Nat → List Char
  | lo :: hi :: rest =>
    let u := lo + 256 * hi
    if u = 0 then [] else Char.ofNat u :: utf16_decode_z rest
  | _ => []

theorem generate_gd3_structure (m : Gd3Metadata) :
    generate_gd3 m =
      GD3_MAGIC ++ leBytes4 GD3_VERSION ++
        leBytes4 ((gd3_strings m).length % 2 ^ 32) ++ gd3_strings m := by
  simp [generate_gd3, GD3_MAGIC, leBytes4, leByte, GD3_VERSION, List.take, List.drop]

theorem write_utf16_char_ascii (c : Char) (h1 : c.toNat < 128) :
    write_utf16_char c = [c.toNat, 0] := by
  unfold write_utf16_char
  rw [if_pos (by omega)]
  have hlt : c.toNat < 256 := by omega
  simp [Nat.mod_eq_of_lt hlt, Nat.div_eq_of_lt hlt]

theorem utf16_roundtrip_ascii (s : List Char) (hs : ∀ c ∈ s, 0 < c.toNat ∧ c.toNat < 128) :
    utf16_decode_z (write_utf16_string s) = s := by
  induction s with
  | nil => rfl
  | cons c rest ih =>
    have hc := hs c (List.mem_cons_self c rest)
    have hrest : ∀ x ∈ rest, 0 < x.toNat ∧ x.toNat < 128 :=
      fun x hx => hs x (List.mem_cons_of_mem c hx)
    show utf16_decode_z (((c :: rest).map write_utf16_char).flatten ++ [0, 0]) = c :: rest
    rw [List.map_cons, List.flatten_cons, write_utf16_char_ascii c hc.2]
    show utf16_decode_z (c.toNat :: 0 :: ((rest.map write_utf16_char).flatten ++ [0, 0]))
      = c :: rest
    rw [utf16_decode_z]
    simp only [Nat.mul_zero, Nat.add_zero]
    rw [if_neg (by omega)]
    rw [show (rest.map write_utf16_char).flatten ++ [0, 0] = write_utf16_string rest from rfl]
    rw [ih hrest, Char.ofNat_toNat]

end Vgmck

namespace Vgmck

theorem write_utf16_char_surrogate (c : Char) (h : 0x10000 ≤ c.toNat) :
    write_utf16_char c =
      [leByte (0xD800 + (c.toNat - 0x10000) / 0x400) 0,
       leByte (0xD800 + (c.toNat - 0x10000) / 0x400) 1,
       leByte (0xDC00 + (c.toNat - 0x10000) % 0x400) 0,
       leByte (0xDC00 + (c.toNat - 0x10000) % 0x400) 1] := by
  have hv : c.toNat < 0x110000 := by
    rcases c.valid with hlt | ⟨_, h2⟩
    · exact Nat.lt_trans hlt (by norm_num)
    · exact h2
  unfold write_utf16_char
  rw [if_neg (by omega)]
  have e1 : (c.toNat - 0x10000) >>> 10 &&& 0x3FF = (c.toNat - 0x10000) / 0x400 := by
    rw [Nat.shiftRight_eq_div_pow]
    rw [show (0x3FF : Nat) = 2 ^ 10 - 1 from rfl, Nat.and_pow_two_sub_one_eq_mod]
    exact Nat.mod_eq_of_lt (by omega)
  have e2 : (c.toNat - 0x10000) &&& 0x3FF = (c.toNat - 0x10000) % 0x400 := by
    rw [show (0x3FF : Nat) = 2 ^ 10 - 1 from rfl, Nat.and_pow_two_sub_one_eq_mod]
  simp only [e1, e2, leByte]
  norm_num

/-- C4 counterexample: the NUL character is an ASCII scalar, yet decoding
its GD3 field encoding (UTF-16LE up to the first NUL) yields the empty
string, not the original one-character string. -/
theorem C4_gd3_roundtrip_counterexample :
    (Char.ofNat 0).toNat < 128 ∧
      utf16_decode_z (write_utf16_string [Char.ofNat 0]) ≠ [Char.ofNat 0] := by
  constructor
  · decide
  · intro hcontra
    have : utf16_decode_z (write_utf16_string [Char.ofNat 0]) = [] := by rfl
    rw [this] at hcontra
    exact List.cons_ne_nil _ _ hcontra.symm

/-- C4 amended: generate_gd3 produces the magic, version 0x100, the u32
byte length of the string region, and exactly the eleven UTF-16LE
null-terminated fields in the fixed order; scalars at or above 0x10000
become surrogate pairs; and decoding gives back the identical string for
NUL-free ASCII inputs (the NUL character itself collides with the
terminator, see the counterexample). -/
theorem C4_gd3_block (m : Gd3Metadata) :
    (generate_gd3 m =
      GD3_MAGIC ++ leBytes4 GD3_VERSION ++
        leBytes4 ((gd3_strings m).length % 2 ^ 32) ++ gd3_strings m) ∧
    (∀ c : Char, 0x10000 ≤ c.toNat →
      write_utf16_char c =
        [leByte (0xD800 + (c.toNat - 0x10000) / 0x400) 0,
         leByte (0xD800 + (c.toNat - 0x10000) / 0x400) 1,
         leByte (0xDC00 + (c.toNat - 0x10000) % 0x400) 0,
         leByte (0xDC00 + (c.toNat - 0x10000) % 0x400) 1]) ∧
    (∀ s : List Char, (∀ c ∈ s, 0 < c.toNat ∧ c.toNat < 128) →
      utf16_decode_z (write_utf16_string s) = s) :=
  ⟨generate_gd3_structure m, write_utf16_char_surrogate, utf16_roundtrip_ascii⟩

/-- Witness: the amended theorem applied at the one-character ASCII string
containing A and the first non-BMP scalar 0x10000. -/
theorem C4_gd3_block_witness :
    utf16_decode_z (write_utf16_string ['A']) = ['A'] ∧
      write_utf16_char (Char.ofNat 0x10000) =
        [leByte (0xD800 + ((Char.ofNat 0x10000).toNat - 0x10000) / 0x400) 0,
         leByte (0xD800 + ((Char.ofNat 0x10000).toNat - 0x10000) / 0x400) 1,
         leByte (0xDC00 + ((Char.ofNat 0x10000).toNat - 0x10000) % 0x400) 0,
         leByte (0xDC00 + ((Char.ofNat 0x10000).toNat - 0x10000) % 0x400) 1] := by
  have main := C4_gd3_block (Gd3Metadata.mk [] [] [] [] [] [] [] [] [] [] [])
  exact ⟨main.2.2 ['A'] (by decide), main.2.1 (Char.ofNat 0x10000) (by decide)⟩

end Vgmck

namespace Vgmck

/-! ## Note length (src/compiler/mod.rs, calc_note_len) -/

/-- Dot loop of `calc_note_len`: each iteration halves j (Rust i64
truncating division) and adds it to k. -/
def calc_dots : Nat → Int × Int → Int × Int
  | 0, kj => kj
  | n + 1, (k, j) =>
    let j2 := Int.tdiv j 2
    calc_dots n (k + j2, j2)

/-- Embedding of `calc_note_len` (src/compiler/mod.rs lines 863-875):
length 0 gives 0, otherwise k = 10584000 / len with `dots` halving
additions, finally divided by tempo; all divisions truncate as in Rust. -/
def calc_note_len (tempo len : Int) (dots : Nat) : Int :=
  if len = 0 then 0
  else
    let k := Int.tdiv 10584000 len
    Int.tdiv (calc_dots dots (k, k)).1 tempo

/-- Modelled from the spec: the t-th dot increment, each dot adding half
of the previous increment, starting from the undotted length. -/
def dot_increment (base : Int) : Nat → Int
  | 0 => base
  | n + 1 => Int.tdiv (dot_increment base n) 2

/-- Modelled from the spec: the floor of 10584000 / len, augmented by the
dotted-note sum, then divided by tempo using integer division. -/
def spec_note_len (tempo len : Int) (dots : Nat) : Int :=
  let base := Int.fdiv 10584000 len
  Int.tdiv (base + (Finset.range dots).sum (fun t => dot_increment base (t + 1))) tempo

theorem dot_increment_half (j : Int) (n : Nat) :
    dot_increment (Int.tdiv j 2) n = dot_increment j (n + 1) := by
  induction n with
  | zero => rfl
  | succ n ih =>
    show Int.tdiv (dot_increment (Int.tdiv j 2) n) 2 = Int.tdiv (dot_increment j (n + 1)) 2
    rw [ih]

theorem calc_dots_eq (n : Nat) (k j : Int) :
    calc_dots n (k, j) =
      (k + (Finset.range n).sum (fun t => dot_increment j (t + 1)), dot_increment j n) := by
  induction n generalizing k j with
  | zero => simp [calc_dots, dot_increment]
  | succ n ih =>
    show calc_dots n (k + Int.tdiv j 2, Int.tdiv j 2) = _
    rw [ih]
    simp only [Prod.mk.injEq]
    constructor
    · rw [Finset.sum_range_succ']
      simp only [dot_increment_half]
      show k + Int.tdiv j 2 + _ = _
      rw [show dot_increment j (0 + 1) = Int.tdiv j 2 from rfl]
      ring
    · rw [dot_increment_half]

theorem dot_increment_nonneg (base : Int) (n : Nat) (h : 0 ≤ base) :
    0 ≤ dot_increment base n := by
  induction n with
  | zero => exact h
  | succ n ih =>
    show 0 ≤ Int.tdiv (dot_increment base n) 2
    exact Int.tdiv_nonneg ih (by norm_num)

/-- C5: for tempo > 0, len > 0 and any dot count, `calc_note_len` equals
the spec formula (floor of 10584000/len, plus the dotted-note sum where
each dot adds half of the previous increment, divided by tempo); a
quarter note at tempo 120 is exactly 22050 samples; len = 0 gives 0. -/
theorem C5_calc_note_len (tempo len : Int) (dots : Nat)
    (htempo : 0 < tempo) (hlen : 0 < len) :
    calc_note_len tempo len dots = spec_note_len tempo len dots ∧
      calc_note_len 120 4 0 = 22050 ∧
      (∀ t : Int, ∀ d : Nat, calc_note_len t 0 d = 0) := by
  refine ⟨?_, by decide, fun t d => by simp [calc_note_len]⟩
  have hbase : Int.fdiv (10584000 : Int) len = Int.tdiv 10584000 len := by
    rw [Int.fdiv_eq_ediv _ (by omega), Int.tdiv_eq_ediv (by norm_num) (by omega)]
  unfold calc_note_len spec_note_len
  rw [if_neg (by omega)]
  simp only [calc_dots_eq, hbase]

/-- Witness: the refinement applied at tempo 120, len 4, one dot. -/
theorem C5_calc_note_len_witness :
    calc_note_len 120 4 1 = spec_note_len 120 4 1 ∧ calc_note_len 120 4 0 = 22050 := by
  have main := C5_calc_note_len 120 4 1 (by norm_num) (by norm_num)
  exact ⟨main.1, main.2.1⟩

end Vgmck

namespace Vgmck

/-! ## Note-table normalization (src/compiler/note.rs lines 22-66 and
src/compiler/mod.rs figure_out_note_values lines 826-860) -/

theorem nat_le_or_left (a b : Nat) : a ≤ a ||| b := by
  have habs : a &&& (a ||| b) = a := by
    apply Nat.eq_of_testBit_eq
    intro i
    rw [Nat.testBit_land, Nat.testBit_lor]
    cases a.testBit i <;> cases b.testBit i <;> rfl
  calc a = a &&& (a ||| b) := habs.symm
    _ ≤ a ||| b := Nat.and_le_right

/-- Embedding of the normalization loop: while the OR-accumulator w still
has bits inside the mask, right-shift w and every table entry by one. -/
def normalize_note_values (mask w : Nat) (u : List Nat) : List Nat :=
  if h : w &&& mask ≠ 0 then
    normalize_note_values mask (w >>> 1) (u.map (fun v => v >>> 1))
  else u
termination_by w
decreasing_by
  have hw : w ≠ 0 := by
    intro hw0
    subst hw0
    simp at h
  rw [Nat.shiftRight_succ, Nat.shiftRight_zero]
  omega

/-- Embedding of `figure_out_note_values` / `NoteTable::calculate`: with
clock_div = 0 the previous table is kept; otherwise the mask is the u64
value (!0) << |note_bits|, w is the OR of all float-derived entries u,
and the entries are normalized.  The float computation that produces u is
not modelled; u is an arbitrary list of u64 values. -/
def figure_out_note_values (clock_div note_bits : Int) (note_value u : List Nat) :
    List Nat :=
  if clock_div = 0 then note_value
  else
    let bits := note_bits.natAbs
    let mask := ((2 ^ 64 - 1) * 2 ^ bits) % 2 ^ 64
    normalize_note_values mask (u.foldr (fun v w => v ||| w) 0) u

theorem mask_testBit_true (bits j : Nat) (h1 : bits ≤ j) (h2 : j < 64) :
    (((2 ^ 64 - 1) * 2 ^ bits) % 2 ^ 64).testBit j = true := by
  rw [Nat.testBit_mod_two_pow, ← Nat.shiftLeft_eq, Nat.testBit_shiftLeft,
    Nat.testBit_two_pow_sub_one]
  simp only [Bool.and_eq_true, decide_eq_true_eq, ge_iff_le]
  omega

theorem lt_pow_of_land_mask_eq_zero (bits w : Nat) (hb : bits < 64) (hw : w < 2 ^ 64)
    (h : w &&& ((2 ^ 64 - 1) * 2 ^ bits) % 2 ^ 64 = 0) : w < 2 ^ bits := by
  have hbit : ∀ j, bits ≤ j → w.testBit j = false := by
    intro j hj
    by_cases hj64 : j < 64
    · have hmask := mask_testBit_true bits j hj hj64
      have hz := congrArg (fun x => x.testBit j) h
      simp only [Nat.testBit_land, Nat.zero_testBit, hmask, Bool.and_true] at hz
      exact hz
    · exact Nat.testBit_eq_false_of_lt
        (lt_of_lt_of_le hw (Nat.pow_le_pow_right (by norm_num) (by omega)))
  have hz : w >>> bits = 0 := by
    apply Nat.zero_of_testBit_eq_false
    intro i
    rw [Nat.testBit_shiftRight]
    exact hbit (bits + i) (by omega)
  rw [Nat.shiftRight_eq_div_pow] at hz
  exact (Nat.div_eq_zero_iff (Nat.pos_pow_of_pos bits (by norm_num))).1 hz

theorem normalize_note_values_spec (mask : Nat) :
    ∀ w u, (∀ x ∈ u, x ≤ w) →
      ∃ wfin, wfin &&& mask = 0 ∧ wfin ≤ w ∧
        ∀ x ∈ normalize_note_values mask w u, x ≤ wfin := by
  intro w
  induction w using Nat.strong_induction_on with
  | _ w ih =>
    intro u hu
    rw [normalize_note_values]
    split
    · rename_i hcond
      have hw : w ≠ 0 := by
        intro hw0
        subst hw0
        simp at hcond
      have hlt : w >>> 1 < w := by
        rw [Nat.shiftRight_succ, Nat.shiftRight_zero]
        omega
      have hu2 : ∀ x ∈ u.map (fun v => v >>> 1), x ≤ w >>> 1 := by
        intro x hx
        rcases List.mem_map.1 hx with ⟨y, hy, rfl⟩
        simp only [Nat.shiftRight_succ, Nat.shiftRight_zero]
        exact Nat.div_le_div_right (hu y hy)
      rcases ih (w >>> 1) hlt (u.map (fun v => v >>> 1)) hu2 with
        ⟨wfin, hf1, hf2, hf3⟩
      exact ⟨wfin, hf1, le_trans hf2 (le_of_lt hlt), hf3⟩
    · rename_i hcond
      exact ⟨w, by simpa using hcond, le_refl w, hu⟩

theorem foldr_or_le (u : List Nat) : ∀ x ∈ u, x ≤ u.foldr (fun v w => v ||| w) 0 := by
  induction u with
  | nil => intro x hx; cases hx
  | cons a rest ih =>
    intro x hx
    rcases List.mem_cons.1 hx with rfl | hmem
    · exact nat_le_or_left x _
    · calc x ≤ rest.foldr (fun v w => v ||| w) 0 := ih x hmem
        _ ≤ a ||| rest.foldr (fun v w => v ||| w) 0 := by
            rw [Nat.lor_comm]
            exact nat_le_or_left _ a

theorem foldr_or_lt_two_pow (u : List Nat) (hu : ∀ x ∈ u, x < 2 ^ 64) :
    u.foldr (fun v w => v ||| w) 0 < 2 ^ 64 := by
  induction u with
  | nil => norm_num
  | cons a rest ih =>
    exact Nat.or_lt_two_pow (hu a (List.mem_cons_self a rest))
      (ih fun x hx => hu x (List.mem_cons_of_mem a hx))

/-- C6: with clock_div ≠ 0 and 0 < |note_bits| < 64, every entry of the
normalized note table is below 2 ^ |note_bits| — no bits remain at or
above position |note_bits| — whatever u64 values the float computation
produced for the raw entries. -/
theorem C6_note_values_fit (clock_div note_bits : Int) (note_value u : List Nat)
    (hcd : clock_div ≠ 0) (hb1 : 0 < note_bits.natAbs) (hb2 : note_bits.natAbs < 64)
    (hu : ∀ x ∈ u, x < 2 ^ 64) :
    ∀ x ∈ figure_out_note_values clock_div note_bits note_value u,
      x < 2 ^ note_bits.natAbs := by
  intro x hx
  unfold figure_out_note_values at hx
  rw [if_neg hcd] at hx
  rcases normalize_note_values_spec (((2 ^ 64 - 1) * 2 ^ note_bits.natAbs) % 2 ^ 64)
    (u.foldr (fun v w => v ||| w) 0) u (foldr_or_le u) with ⟨wfin, hf1, hf2, hf3⟩
  have hwfin : wfin < 2 ^ 64 := lt_of_le_of_lt hf2 (foldr_or_lt_two_pow u hu)
  exact lt_of_le_of_lt (hf3 x hx)
    (lt_pow_of_land_mask_eq_zero note_bits.natAbs wfin hb2 hwfin hf1)

/-- Witness: the theorem applied with clock_div 16, note_bits 10, and a
pair of raw entries, one of which overflows 10 bits. -/
theorem C6_note_values_fit_witness :
    (figure_out_note_values 16 10 [] [3000, 117]).Forall
      (fun x => x < 2 ^ (10 : Int).natAbs) := by
  refine List.forall_iff_forall_mem.2 ?_
  exact C6_note_values_fit 16 10 [] [3000, 117] (by norm_num) (by norm_num) (by norm_num)
    (by intro x hx; fin_cases hx <;> norm_num)

end Vgmck

namespace Vgmck

/-! ## Macro envelopes (src/compiler/envelope.rs) -/

/-- Maximum envelope data length. -/
def MAX_ENVELOPE_DATA : Nat := 2048

/-- Embedding of `MacroEnvelope` (the text label is irrelevant to the
claims and omitted): i32 indices as Int, i16 data as Int. -/
structure MacroEnvelope where
  loop_start : Int
  loop_end : Int
  data : List Int

/-- Rust `as usize` cast of an i32 on a 64-bit target: sign-extend, then
reinterpret (negative values become huge). -/
def i32_as_usize (x : Int) : Nat := (x % 2 ^ 64).toNat

/-- Embedding of `MacroEnvelope::new` / the parser reset at
src/compiler/mod.rs lines 630-633. -/
def MacroEnvelope.new : MacroEnvelope :=
  { loop_start := -1, loop_end := 0, data := [] }

/-- Embedding of `MacroEnvelope::push` (src/compiler/envelope.rs lines
177-186): guarded by loop_end (cast to usize) < 2048; appends or
overwrites at index loop_end, then increments loop_end. -/
def MacroEnvelope.push (env : MacroEnvelope) (value : Int) : MacroEnvelope :=
  if i32_as_usize env.loop_end < MAX_ENVELOPE_DATA then
    if env.data.length ≤ i32_as_usize env.loop_end then
      { env with data := env.data ++ [value], loop_end := env.loop_end + 1 }
    else
      { env with data := env.data.set (i32_as_usize env.loop_end) value,
                 loop_end := env.loop_end + 1 }
  else env

/-- Embedding of `MacroEnvelope::set_loop_point`. -/
def MacroEnvelope.set_loop_point (env : MacroEnvelope) : MacroEnvelope :=
  { env with loop_start := env.loop_end }

/-- States reachable from a fresh envelope by any sequence of push and
set_loop_point operations (exactly the operations the envelope parser in
src/compiler/mod.rs performs on an envelope after resetting it). -/
inductive EnvReachable : MacroEnvelope → Prop
  | new : EnvReachable MacroEnvelope.new
  | push (env : MacroEnvelope) (v : Int) :
      EnvReachable env → EnvReachable (env.push v)
  | set_loop_point (env : MacroEnvelope) :
      EnvReachable env → EnvReachable env.set_loop_point

theorem i32_as_usize_of_nonneg (x : Int) (h1 : 0 ≤ x) (h2 : x < 2 ^ 64) :
    i32_as_usize x = x.toNat := by
  unfold i32_as_usize
  rw [Int.emod_eq_of_lt h1 h2]

theorem env_invariant (env : MacroEnvelope) (h : EnvReachable env) :
    0 ≤ env.loop_end ∧ env.loop_end ≤ 2048 ∧
      env.loop_end = (env.data.length : Int) ∧
      (env.loop_start = -1 ∨ (0 ≤ env.loop_start ∧ env.loop_start ≤ env.loop_end)) := by
  induction h with
  | new => exact ⟨by simp [MacroEnvelope.new], by simp [MacroEnvelope.new],
      by simp [MacroEnvelope.new], Or.inl rfl⟩
  | push env v hr ih =>
    rcases ih with ⟨h1, h2, h3, h4⟩
    unfold MacroEnvelope.push
    rw [i32_as_usize_of_nonneg env.loop_end h1 (by omega)]
    split
    · rename_i hguard
      simp only [MAX_ENVELOPE_DATA] at hguard
      rw [if_pos (by omega)]
      dsimp only
      refine ⟨by omega, by omega, ?_, ?_⟩
      · simp only [List.length_append, List.length_cons, List.length_nil]
        omega
      · rcases h4 with h4 | h4
        · exact Or.inl h4
        · exact Or.inr ⟨h4.1, by omega⟩
    · exact ⟨h1, h2, h3, h4⟩
  | set_loop_point env hr ih =>
    rcases ih with ⟨h1, h2, h3, h4⟩
    exact ⟨h1, h2, h3, Or.inr ⟨h1, le_refl _⟩⟩

/-- C7 counterexample: marking a loop point at the tail of an envelope
(MML token bar at end of an envelope line, e.g. the line that pushes one
value and then a loop mark) gives a reachable envelope with
loop_start = loop_end = length, so the stated invariant
loop_start = -1 or 0 ≤ loop_start < length is violated. -/
theorem C7_envelope_counterexample :
    EnvReachable ((MacroEnvelope.new.push 5).set_loop_point) ∧
      ¬ (((MacroEnvelope.new.push 5).set_loop_point).loop_start = -1 ∨
        (0 ≤ ((MacroEnvelope.new.push 5).set_loop_point).loop_start ∧
          ((MacroEnvelope.new.push 5).set_loop_point).loop_start <
            ((MacroEnvelope.new.push 5).set_loop_point).loop_end)) := by
  constructor
  · exact EnvReachable.set_loop_point _ (EnvReachable.push _ 5 EnvReachable.new)
  · intro hcontra
    have : (MacroEnvelope.new.push 5).set_loop_point =
        { loop_start := 1, loop_end := 1, data := [5] } := by
      rfl
    rw [this] at hcontra
    rcases hcontra with h | h
    · exact absurd h (by norm_num)
    · exact absurd h.2 (by norm_num)

/-- C7 amended: every envelope reachable by push and set_loop_point
operations has loop_end at most 2048, a push at loop_end = 2048 leaves
the envelope unchanged, and loop_start is -1 or satisfies
0 ≤ loop_start ≤ loop_end (the bound is not strict: a loop point marked
at the tail sits at loop_start = loop_end). -/
theorem C7_envelope_invariant (env : MacroEnvelope) (h : EnvReachable env) :
    env.loop_end ≤ 2048 ∧
      (env.loop_end = 2048 → ∀ v, env.push v = env) ∧
      (env.loop_start = -1 ∨ (0 ≤ env.loop_start ∧ env.loop_start ≤ env.loop_end)) := by
  rcases env_invariant env h with ⟨h1, h2, h3, h4⟩
  refine ⟨h2, fun hfull v => ?_, h4⟩
  unfold MacroEnvelope.push
  rw [i32_as_usize_of_nonneg env.loop_end h1 (by omega)]
  rw [if_neg (by rw [hfull]; norm_num [MAX_ENVELOPE_DATA])]

/-- Witness: the amended invariant applied to the envelope reached by one
push followed by a loop-point mark. -/
theorem C7_envelope_invariant_witness :
    ((MacroEnvelope.new.push 5).set_loop_point).loop_end ≤ 2048 ∧
      (((MacroEnvelope.new.push 5).set_loop_point).loop_start = -1 ∨
        (0 ≤ ((MacroEnvelope.new.push 5).set_loop_point).loop_start ∧
          ((MacroEnvelope.new.push 5).set_loop_point).loop_start ≤
            ((MacroEnvelope.new.push 5).set_loop_point).loop_end)) := by
  have main := C7_envelope_invariant ((MacroEnvelope.new.push 5).set_loop_point)
    (EnvReachable.set_loop_point _ (EnvReachable.push _ 5 EnvReachable.new))
  exact ⟨main.1, main.2.2⟩

end Vgmck

namespace Vgmck

/-! ## Envelope block stack (src/compiler/mod.rs lines 703-727, state
fields env_block, env_brep, env_bst of src/compiler/mod.rs lines 102-105) -/

/-- Embedding of the block-stack dynamics of `parse_envelope`: an open
bracket stores into env_brep[env_block] and env_bst[env_block] — an
out-of-bounds index (hence none) when env_block is not below the array
length 32 — then increments env_block; a close bracket with a non-empty
stack decrements; any other byte falls to the final else of the parser,
which returns.  env_block starts at 0 in `Compiler::new`. -/
def run_env_blocks : Nat → List Char → Option Nat
  | blk, [] => some blk
  | blk, c :: rest =>
    if c = '[' then
      if blk < 32 then run_env_blocks (blk + 1) rest
      else none
    else if c = ']' ∧ blk > 0 then run_env_blocks (blk - 1) rest
    else some blk

theorem run_env_blocks_replicate_open (n blk : Nat) (h : blk + n ≤ 32) :
    run_env_blocks blk (List.replicate n '[') = some (blk + n) := by
  induction n generalizing blk with
  | zero => simp [run_env_blocks]
  | succ n ih =>
    rw [List.replicate_succ, run_env_blocks]
    rw [if_pos rfl, if_pos (by omega)]
    rw [ih (blk + 1) (by omega)]
    congr 1
    omega

/-- C8 counterexample: the 33rd consecutive open bracket is processed
with env_block = 32 and indexes the 32-entry arrays env_brep and env_bst
out of bounds (the parse has no guard on env_block before the store). -/
theorem C8_block_stack_counterexample :
    run_env_blocks 0 (List.replicate 33 '[') = none := by
  decide

/-- C8 amended: block nesting is supported to depth exactly 32: any run
of at most 32 consecutive open brackets from a fresh parser state stays
in bounds and leaves the depth equal to the run length, while a 33rd
consecutive open bracket indexes the 32-entry block-stack arrays out of
bounds. -/
theorem C8_block_stack_depth (n : Nat) (h : n ≤ 32) :
    run_env_blocks 0 (List.replicate n '[') = some n ∧
      run_env_blocks 0 (List.replicate 33 '[') = none := by
  refine ⟨?_, by decide⟩
  have := run_env_blocks_replicate_open n 0 (by omega)
  simpa using this

/-- Witness: the amended theorem applied at the maximum depth 32. -/
theorem C8_block_stack_depth_witness :
    run_env_blocks 0 (List.replicate 32 '[') = some 32 :=
  (C8_block_stack_depth 32 (by norm_num)).1

end Vgmck

namespace Vgmck

/-! ## VGM writer (src/vgm/writer.rs) -/

/-- Embedding of `VgmWriter`.  All file writes go through `write_data`,
which writes at data_pos and advances it, so the file contents are the
192 header bytes (rewritten last by `finalize`) followed by the data
bytes in write order; data_pos is derived as 192 + length. -/
structure VgmWriter where
  header : VgmHeader
  data : List Nat
  loop_offset : Option Nat

/-- Current position in the data section (starts at VGM_HEADER_SIZE). -/
def VgmWriter.data_pos (w : VgmWriter) : Nat := VGM_HEADER_SIZE + w.data.length

/-- Embedding of `VgmWriter::new`. -/
def VgmWriter.new : VgmWriter :=
  { header := VgmHeader.new, data := [], loop_offset := none }

/-- Embedding of `VgmWriter::write_data`. -/
def VgmWriter.write_data (w : VgmWriter) (bytes : List Nat) : VgmWriter :=
  { w with data := w.data ++ bytes }

/-- Embedding of `VgmWriter::write_byte`. -/
def VgmWriter.write_byte (w : VgmWriter) (b : Nat) : VgmWriter :=
  w.write_data [b]

/-- Embedding of `VgmWriter::write_end`. -/
def VgmWriter.write_end (w : VgmWriter) : VgmWriter :=
  w.write_byte CMD_END

/-- Embedding of `VgmWriter::mark_loop_start`. -/
def VgmWriter.mark_loop_start (w : VgmWriter) : VgmWriter :=
  { w with loop_offset := some w.data_pos }

/-- Embedding of `VgmWriter::finalize` (src/vgm/writer.rs lines 106-137):
end marker, GD3 block with header GD3-offset relative to 0x14, EOF offset
relative to 0x04, loop offset relative to 0x1C when marked, then the
header is rewritten at file start.  The u32 casts keep the low 32 bits. -/
def VgmWriter.finalize (w : VgmWriter) (m : Gd3Metadata) : VgmWriter :=
  let w1 := w.write_end
  let gd3_offset := w1.data_pos
  let gd3_data := generate_gd3 m
  let w2 :=
    if gd3_data ≠ [] then
      let wa := w1.write_data gd3_data
      { wa with header := wa.header.write_u32 0x14 ((gd3_offset - 0x14) % 2 ^ 32) }
    else w1
  let eof_offset := w2.data_pos - 0x04
  let w3 := { w2 with header := w2.header.write_u32 0x04 (eof_offset % 2 ^ 32) }
  match w2.loop_offset with
  | some loop_pos =>
      { w3 with header := w3.header.write_u32 0x1C ((loop_pos - 0x1C) % 2 ^ 32) }
  | none => w3

/-- The bytes of the output file: header followed by the data section. -/
def VgmWriter.file_bytes (w : VgmWriter) : List Nat := w.header.bytes ++ w.data

theorem generate_gd3_ne_nil (m : Gd3Metadata) : generate_gd3 m ≠ [] := by
  rw [generate_gd3_structure]
  simp [GD3_MAGIC]

theorem generate_gd3_take4 (m : Gd3Metadata) : (generate_gd3 m).take 4 = GD3_MAGIC := by
  rw [generate_gd3_structure]
  rw [show (4 : Nat) = GD3_MAGIC.length from rfl, List.append_assoc, List.append_assoc]
  exact List.take_left GD3_MAGIC _

end Vgmck

namespace Vgmck

theorem bytes_append_drop (h : VgmHeader) (l : List Nat) (n : Nat) :
    (h.bytes ++ l).drop (192 + n) = l.drop n := by
  rw [← VgmHeader.length_bytes h, List.drop_append]

/-- C3: after finalize, the EOF-offset field at 0x04 plus 4 is the file
length; the GD3-offset field at 0x14 plus 0x14 is the position right
after the 0x66 end marker and the four file bytes there are the magic
Gd3-space; if a loop point was marked, the loop-offset field at 0x1C plus
0x1C is the recorded data position, and it stays 0 when none was marked
(mark_loop_start records exactly the current data position). -/
theorem C3_finalize_offsets (w : VgmWriter) (m : Gd3Metadata)
    (hL : VGM_HEADER_SIZE + w.data.length + 1 + (generate_gd3 m).length ≤ 2 ^ 32) :
    ((w.finalize m).header.readU32 0x04 + 4 = (w.finalize m).file_bytes.length) ∧
    ((w.finalize m).header.readU32 0x14 + 0x14 = VGM_HEADER_SIZE + w.data.length + 1) ∧
    ((((w.finalize m).file_bytes.drop ((w.finalize m).header.readU32 0x14 + 0x14)).take 4)
      = GD3_MAGIC) ∧
    (∀ p, w.loop_offset = some p → 0x1C ≤ p → p ≤ 2 ^ 32 →
      (w.finalize m).header.readU32 0x1C + 0x1C = p) ∧
    (w.loop_offset = none → w.header.readU32 0x1C = 0 →
      (w.finalize m).header.readU32 0x1C = 0) ∧
    (∀ w0 : VgmWriter, w0.mark_loop_start.loop_offset = some w0.data_pos) := by
  obtain ⟨hd, dat, lo⟩ := w
  simp only [VGM_HEADER_SIZE] at hL ⊢
  have hgd3 : generate_gd3 m ≠ [] := generate_gd3_ne_nil m
  have hgl : 0 < (generate_gd3 m).length := List.length_pos.2 hgd3
  simp only [VgmWriter.finalize, VgmWriter.write_end, VgmWriter.write_byte,
    VgmWriter.write_data, VgmWriter.data_pos, VgmWriter.file_bytes, VGM_HEADER_SIZE,
    if_pos hgd3, VgmWriter.mark_loop_start, List.length_append, List.length_cons,
    List.length_nil, List.append_assoc]
  cases lo with
  | none =>
    simp only
    refine ⟨?_, ?_, ?_, fun p hp => Option.noConfusion hp, fun _ hz => ?_, fun w0 => trivial⟩
    · rw [VgmHeader.readU32_write_u32 _ 0x04 _ (by norm_num)]
      simp only [List.length_append, List.length_cons, List.length_nil,
        VgmHeader.length_bytes]
      omega
    · rw [VgmHeader.readU32_write_u32_other _ 0x04 _ 0x14 (Or.inr (by norm_num))]
      rw [VgmHeader.readU32_write_u32 _ 0x14 _ (by norm_num)]
      omega
    · rw [VgmHeader.readU32_write_u32_other _ 0x04 _ 0x14 (Or.inr (by norm_num))]
      rw [VgmHeader.readU32_write_u32 _ 0x14 _ (by norm_num)]
      rw [show (192 + (dat.length + (0 + 1)) - 0x14) % 2 ^ 32 % 2 ^ 32 + 0x14
        = 192 + (dat.length + 1) by omega]
      rw [bytes_append_drop]
      rw [List.drop_append 1]
      rw [show ([CMD_END] ++ generate_gd3 m).drop 1 = generate_gd3 m from rfl]
      exact generate_gd3_take4 m
    · rw [VgmHeader.readU32_write_u32_other _ 0x04 _ 0x1C (Or.inr (by norm_num))]
      rw [VgmHeader.readU32_write_u32_other _ 0x14 _ 0x1C (Or.inr (by norm_num))]
      exact hz
  | some p =>
    simp only
    refine ⟨?_, ?_, ?_, fun q hq h1 h2 => ?_,
      fun hcontra => Option.noConfusion hcontra, fun w0 => trivial⟩
    · rw [VgmHeader.readU32_write_u32_other _ 0x1C _ 0x04 (Or.inl (by norm_num))]
      rw [VgmHeader.readU32_write_u32 _ 0x04 _ (by norm_num)]
      simp only [List.length_append, List.length_cons, List.length_nil,
        VgmHeader.length_bytes]
      omega
    · rw [VgmHeader.readU32_write_u32_other _ 0x1C _ 0x14 (Or.inl (by norm_num))]
      rw [VgmHeader.readU32_write_u32_other _ 0x04 _ 0x14 (Or.inr (by norm_num))]
      rw [VgmHeader.readU32_write_u32 _ 0x14 _ (by norm_num)]
      omega
    · rw [VgmHeader.readU32_write_u32_other _ 0x1C _ 0x14 (Or.inl (by norm_num))]
      rw [VgmHeader.readU32_write_u32_other _ 0x04 _ 0x14 (Or.inr (by norm_num))]
      rw [VgmHeader.readU32_write_u32 _ 0x14 _ (by norm_num)]
      rw [show (192 + (dat.length + (0 + 1)) - 0x14) % 2 ^ 32 % 2 ^ 32 + 0x14
        = 192 + (dat.length + 1) by omega]
      rw [bytes_append_drop]
      rw [List.drop_append 1]
      rw [show ([CMD_END] ++ generate_gd3 m).drop 1 = generate_gd3 m from rfl]
      exact generate_gd3_take4 m
    · cases hq
      rw [VgmHeader.readU32_write_u32 _ 0x1C _ (by norm_num)]
      omega

end Vgmck

namespace Vgmck

/-- Witness: the finalize theorem applied to a writer holding one data
byte with a loop point recorded at position 193, and empty metadata. -/
theorem C3_finalize_offsets_witness :
    ((VgmWriter.mk VgmHeader.new [0x50] (some 193)).finalize
        (Gd3Metadata.mk [] [] [] [] [] [] [] [] [] [] [])).header.readU32 0x04 + 4 =
      ((VgmWriter.mk VgmHeader.new [0x50] (some 193)).finalize
        (Gd3Metadata.mk [] [] [] [] [] [] [] [] [] [] [])).file_bytes.length ∧
    ((VgmWriter.mk VgmHeader.new [0x50] (some 193)).finalize
        (Gd3Metadata.mk [] [] [] [] [] [] [] [] [] [] [])).header.readU32 0x1C + 0x1C = 193 := by
  have main := C3_finalize_offsets (VgmWriter.mk VgmHeader.new [0x50] (some 193))
    (Gd3Metadata.mk [] [] [] [] [] [] [] [] [] [] []) (by decide)
  exact ⟨main.1, main.2.2.2.1 193 rfl (by norm_num) (by norm_num)⟩

end Vgmck

namespace Vgmck

/-! ## Channel-data lines (src/compiler/mod.rs parse_channel_line,
lines 769-823, and src/error.rs Error::UndeclaredChannel) -/

/-- The compiler error cases relevant to channel-data lines. -/
inductive CompileError where
  | UndeclaredChannel (ch : Char)
deriving DecidableEq

/-- Embedding of `Compiler::channel_index` on a byte: capital letters map
to 0..25, small letters to 26..51, anything else to none. -/
def channel_index (c : Nat) : Option Nat :=
  if 65 ≤ c ∧ c ≤ 90 then some (c - 65)
  else if 97 ≤ c ∧ c ≤ 122 then some (c - 97 + 26)
  else none

/-- The channel letter printed for an index (src/compiler/mod.rs lines
813-817). -/
def channel_char (idx : Nat) : Char :=
  if idx < 26 then Char.ofNat (65 + idx) else Char.ofNat (97 + (idx - 26))

/-- Embedding of the channel-name loop of `parse_channel_line`: consume
leading bytes that are above the space character and map to channel
indices; stop (without consuming) at the first byte that does not. -/
def collect_channel_indices : List Nat → List Nat × List Nat
  | [] => ([], [])
  | c :: rest =>
    if c > 32 then
      match channel_index c with
      | some idx =>
        let p := collect_channel_indices rest
        (idx :: p.1, p.2)
      | none => ([], c :: rest)
    else ([], c :: rest)

/-- Embedding of the text loop of `parse_channel_line`: stop at a
semicolon comment; a star followed by another byte splices the text macro
of that byte (when its id is below 128) and consumes both bytes; any
other byte is copied. -/
def expand_text (macs : Nat → List Nat) : List Nat → List Nat
  | [] => []
  | [c] => if c = 59 then [] else [c]
  | c :: m :: rest =>
    if c = 59 then []
    else if c = 42 then (if m < 128 then macs m else []) ++ expand_text macs rest
    else c :: expand_text macs (m :: rest)

/-- Embedding of the append loop of `parse_channel_line`: append the text
to every named channel, failing with UndeclaredChannel at the first index
whose channel was never declared. -/
def append_channels (channels : Nat → Option (List Nat)) (text : List Nat) :
    List Nat → Except CompileError (Nat → Option (List Nat))
  | [] => Except.ok channels
  | idx :: rest =>
    match channels idx with
    | some t => append_channels (Function.update channels idx (some (t ++ text))) text rest
    | none => Except.error (CompileError.UndeclaredChannel (channel_char idx))

/-- Embedding of `parse_channel_line`: channel state is the per-channel
text buffer (the Channel fields other than text are irrelevant here). -/
def parse_channel_line (channels : Nat → Option (List Nat)) (macs : Nat → List Nat)
    (line : List Nat) : Except CompileError (Nat → Option (List Nat)) :=
  let p := collect_channel_indices line
  if p.1 = [] then Except.ok channels
  else append_channels channels (expand_text macs p.2) p.1

theorem append_channels_error (text : List Nat) :
    ∀ (pre : List Nat) (channels : Nat → Option (List Nat)) (j : Nat) (post : List Nat),
      (∀ i ∈ pre, channels i ≠ none) → channels j = none →
      append_channels channels text (pre ++ j :: post) =
        Except.error (CompileError.UndeclaredChannel (channel_char j)) := by
  intro pre
  induction pre with
  | nil =>
    intro channels j post _ hj
    simp only [List.nil_append, append_channels, hj]
  | cons a rest ih =>
    intro channels j post hpre hj
    have ha : channels a ≠ none := hpre a (List.mem_cons_self a rest)
    rcases ho : channels a with _ | t
    · exact absurd ho ha
    simp only [List.cons_append, append_channels, ho]
    apply ih
    · intro i hi
      by_cases hia : i = a
      · subst hia
        rw [Function.update_same]
        exact Option.noConfusion
      · rw [Function.update_noteq hia]
        exact hpre i (List.mem_cons_of_mem a hi)
    · by_cases hja : j = a
      · subst hja
        exact absurd hj ha
      · rw [Function.update_noteq hja]
        exact hj

theorem append_channels_ok (text : List Nat) :
    ∀ (idxs : List Nat) (channels : Nat → Option (List Nat)),
      (∀ i ∈ idxs, channels i ≠ none) →
      ∃ channels2,
        append_channels channels text idxs = Except.ok channels2 ∧
        (∀ i, i ∉ idxs → channels2 i = channels i) ∧
        (∀ i ∈ idxs, ∃ t0, channels i = some t0 ∧
          channels2 i = some (t0 ++ (List.replicate (idxs.count i) text).flatten)) := by
  intro idxs
  induction idxs with
  | nil =>
    intro channels _
    exact ⟨channels, rfl, fun i _ => rfl, fun i hi => absurd hi (List.not_mem_nil i)⟩
  | cons a rest ih =>
    intro channels hdecl
    have ha : channels a ≠ none := hdecl a (List.mem_cons_self a rest)
    rcases ho : channels a with _ | t
    · exact absurd ho ha
    have hdecl2 : ∀ i ∈ rest, Function.update channels a (some (t ++ text)) i ≠ none := by
      intro i hi
      by_cases hia : i = a
      · subst hia
        rw [Function.update_same]
        exact Option.noConfusion
      · rw [Function.update_noteq hia]
        exact hdecl i (List.mem_cons_of_mem a hi)
    rcases ih (Function.update channels a (some (t ++ text))) hdecl2 with
      ⟨channels2, heq, hframe, happ⟩
    refine ⟨channels2, ?_, ?_, ?_⟩
    · simp only [append_channels, ho]
      exact heq
    · intro i hi
      have hia : i ≠ a := fun h => hi (h ▸ List.mem_cons_self a rest)
      have hir : i ∉ rest := fun h => hi (List.mem_cons_of_mem a h)
      rw [hframe i hir, Function.update_noteq hia]
    · intro i hi
      by_cases hia : i = a
      · subst hia
        by_cases hir : i ∈ rest
        · rcases happ i hir with ⟨t0, ht0, hc2⟩
          rw [Function.update_same] at ht0
          have ht0b : t0 = t ++ text := (Option.some.inj ht0).symm
          refine ⟨t, ho, ?_⟩
          rw [hc2, ht0b]
          rw [List.count_cons_self, List.replicate_succ, List.flatten_cons,
            List.append_assoc]
        · refine ⟨t, ho, ?_⟩
          rw [hframe i hir, Function.update_same]
          rw [List.count_cons_self, List.count_eq_zero.2 hir]
          simp
      · have hir : i ∈ rest := by
          rcases List.mem_cons.1 hi with h | h
          · exact absurd h hia
          · exact h
        rcases happ i hir with ⟨t0, ht0, hc2⟩
        rw [Function.update_noteq hia] at ht0
        refine ⟨t0, ht0, ?_⟩
        rw [hc2]
        rw [List.count_cons_of_ne hia]

end Vgmck

namespace Vgmck

/-- C9: a channel-data line naming a channel letter with no prior
declaration fails with UndeclaredChannel for the first such letter (and
the compile propagates this error before the output file is created);
when every named letter was declared, the line returns no error and the
macro-expanded MML text is appended to each named channel (once per
occurrence), all other channels unchanged. -/
theorem C9_parse_channel_line (channels : Nat → Option (List Nat))
    (macs : Nat → List Nat) (line : List Nat) :
    (∀ pre j post, (collect_channel_indices line).1 = pre ++ j :: post →
      (∀ i ∈ pre, channels i ≠ none) → channels j = none →
      parse_channel_line channels macs line =
        Except.error (CompileError.UndeclaredChannel (channel_char j))) ∧
    ((∀ i ∈ (collect_channel_indices line).1, channels i ≠ none) →
      ∃ channels2, parse_channel_line channels macs line = Except.ok channels2 ∧
        (∀ i, i ∉ (collect_channel_indices line).1 → channels2 i = channels i) ∧
        (∀ i ∈ (collect_channel_indices line).1, ∃ t0, channels i = some t0 ∧
          channels2 i = some (t0 ++
            (List.replicate ((collect_channel_indices line).1.count i)
              (expand_text macs (collect_channel_indices line).2)).flatten))) := by
  constructor
  · intro pre j post hsplit hpre hj
    unfold parse_channel_line
    simp only
    rw [if_neg (by rw [hsplit]; simp), hsplit]
    exact append_channels_error _ pre channels j post hpre hj
  · intro hdecl
    unfold parse_channel_line
    simp only
    by_cases hnil : (collect_channel_indices line).1 = []
    · rw [if_pos hnil]
      refine ⟨channels, rfl, fun i _ => rfl, fun i hi => ?_⟩
      rw [hnil] at hi
      exact absurd hi (List.not_mem_nil i)
    · rw [if_neg hnil]
      exact append_channels_ok _ _ channels hdecl

/-- Witness: with only channel A declared, the line with bytes of
the text B-space-c-4 fails with UndeclaredChannel B, while the same line
for channel A succeeds. -/
theorem C9_parse_channel_line_witness :
    parse_channel_line (fun i => if i = 0 then some [] else none) (fun _ => [])
        [66, 32, 99, 52]
      = Except.error (CompileError.UndeclaredChannel (Char.ofNat 66)) ∧
    ∃ channels2,
      parse_channel_line (fun i => if i = 0 then some [] else none) (fun _ => [])
          [65, 32, 99, 52]
        = Except.ok channels2 := by
  constructor
  · have main := (C9_parse_channel_line (fun i => if i = 0 then some [] else none)
      (fun _ => []) [66, 32, 99, 52]).1
    have happ := main [] 1 [] (by decide) (fun i hi => absurd hi (List.not_mem_nil i))
      (by decide)
    rw [happ]
    rfl
  · have main := (C9_parse_channel_line (fun i => if i = 0 then some [] else none)
      (fun _ => []) [65, 32, 99, 52]).2
    rcases main (by decide) with ⟨c2, hc2, _, _⟩
    exact ⟨c2, hc2⟩

end Vgmck

namespace Vgmck

/-! ## MML channel compiler (src/compiler/mod.rs compile_channel,
send_note_if_pending, read_num and helpers) -/

/-- Rust `as u32` cast of an i64. -/
def as_u32 (x : Int) : Nat := (x % 2 ^ 32).toNat

/-- Rust `as i32` cast of an i64. -/
def as_i32 (x : Int) : Int := (x + 2 ^ 31) % 2 ^ 32 - 2 ^ 31

/-- Rust `as i16` cast of an i64. -/
def as_i16 (x : Int) : Int := (x + 2 ^ 15) % 2 ^ 16 - 2 ^ 15

/-- Rust `as u8` cast of an i64. -/
def as_u8 (x : Int) : Nat := (x % 2 ^ 8).toNat

/-- Rust `as u16` cast of an i64. -/
def as_u16 (x : Int) : Nat := (x % 2 ^ 16).toNat

/-- Arithmetic right shift of an i64 by an i64 amount; the release-mode
shift masks the amount to its low six bits. -/
def shr64s (x y : Int) : Int := Int.fdiv x (2 ^ (y % 64).toNat)

/-- Prefix loop of `read_num` (src/compiler/mod.rs lines 248-264) on the
remaining bytes: a dollar selects hex, plus and minus set the sign.
Returns (base, sign, consumed count); the source's absolute position is
the call position plus the consumed count. -/
def read_prefix_l : List Nat → Int → Int → Int × Int × Nat
  | [], base, sign => (base, sign, 0)
  | b :: rest, base, sign =>
    if b = 36 then
      let r := read_prefix_l rest 16 sign
      (r.1, r.2.1, r.2.2 + 1)
    else if b = 43 then
      let r := read_prefix_l rest base 1
      (r.1, r.2.1, r.2.2 + 1)
    else if b = 45 then
      let r := read_prefix_l rest base (-1)
      (r.1, r.2.1, r.2.2 + 1)
    else (base, sign, 0)

/-- A digit byte under the current base (src/compiler/mod.rs lines 267-277). -/
def digit_val (base : Int) (b : Nat) : Option Int :=
  if 48 ≤ b ∧ b ≤ 57 then some ((b : Int) - 48)
  else if base = 16 ∧ 65 ≤ b ∧ b ≤ 70 then some ((b : Int) - 65 + 10)
  else if base = 16 ∧ 97 ≤ b ∧ b ≤ 102 then some ((b : Int) - 97 + 10)
  else none

/-- Digit loop of `read_num` on the remaining bytes, returning the value
and the consumed count. -/
def read_digits_l : List Nat → Int → Int → Int × Nat
  | [], _, value => (value, 0)
  | b :: rest, base, value =>
    match digit_val base b with
    | some d =>
      let r := read_digits_l rest base (value * base + d)
      (r.1, r.2 + 1)
    | none => (value, 0)

/-- Embedding of `Compiler::read_num`: optional comma, sign and hex
prefix, then digits; returns the signed value and the new position. -/
def read_num (bytes : List Nat) (pos : Nat) : Int × Nat :=
  let l := bytes.drop pos
  let c1 : Nat := match l with
    | 44 :: _ => 1
    | _ => 0
  let l1 := l.drop c1
  let p := read_prefix_l l1 10 1
  let q := read_digits_l (l1.drop p.2.2) p.1 0
  (p.2.1 * q.1, pos + c1 + p.2.2 + q.2)

/-- Leading-dot count on the remaining bytes. -/
def count_dots_l : List Nat → Nat
  | 46 :: rest => count_dots_l rest + 1
  | _ => 0

/-- Dot-counting loop shared by `read_len` and `read_note_params`. -/
def count_dots (bytes : List Nat) (pos dots : Nat) : Nat × Nat :=
  let n := count_dots_l (bytes.drop pos)
  (dots + n, pos + n)

/-- Embedding of `Compiler::read_len`. -/
def read_len (bytes : List Nat) (pos : Nat) (tempo : Int) : Int × Nat :=
  let q := read_num bytes pos
  let r := count_dots bytes q.2 0
  (calc_note_len tempo (as_i32 q.1) r.1, r.2)

/-- Accidental loop of `read_note_params` on the remaining bytes: plus
and minus move by a semitone, an apostrophe byte by one scale octave.
Returns (note, consumed count). -/
def read_accidentals_l (octave_count : Int) : List Nat → Int → Int × Nat
  | [], note => (note, 0)
  | b :: rest, note =>
    if b = 43 then
      let r := read_accidentals_l octave_count rest (note + 1)
      (r.1, r.2 + 1)
    else if b = 45 then
      let r := read_accidentals_l octave_count rest (note - 1)
      (r.1, r.2 + 1)
    else if b = 39 then
      let r := read_accidentals_l octave_count rest (note + octave_count)
      (r.1, r.2 + 1)
    else (note, 0)

/-- Accidental loop at an absolute position. -/
def read_accidentals (octave_count : Int) (bytes : List Nat) (pos : Nat) (note : Int) :
    Int × Nat :=
  let r := read_accidentals_l octave_count (bytes.drop pos) note
  (r.1, pos + r.2)

/-- Dots-only extension of `read_note_params` (each dot adds a halving of
the previous length). -/
def extend_dots : Nat → Int → Int → Int
  | 0, len, _ => len
  | n + 1, len, j =>
    let j2 := Int.tdiv j 2
    extend_dots n (len + j2) j2

/-- Embedding of `Compiler::read_note_params`: accidentals (only when the
note is set), a length number, dots; a zero number extends the incoming
length by dots instead.  Returns (len, note, pos). -/
def read_note_params (octave_count : Int) (bytes : List Nat) (pos : Nat)
    (len note tempo : Int) : Int × Int × Nat :=
  let len2 := len
  let a := if 0 ≤ note then read_accidentals octave_count bytes pos note else (note, pos)
  let q := read_num bytes a.2
  let x := as_i32 q.1
  let r := count_dots bytes q.2 0
  let len3 := if x ≠ 0 then calc_note_len tempo x r.1 else extend_dots r.1 len2 len2
  (len3, a.1, r.2)

/-- Count of leading bytes other than the question mark. -/
def skip_to_question_l : List Nat → Nat
  | [] => 0
  | b :: rest => if b ≠ 63 then skip_to_question_l rest + 1 else 0

/-- Skip-to-question loop of the conditional construct. -/
def skip_to_question (bytes : List Nat) (pos : Nat) : Nat :=
  pos + skip_to_question_l (bytes.drop pos)

/-- Letter scan of the phase-sync construct on the remaining bytes,
returning (phase, count, consumed count). -/
def phase_scan_l (chan_idx : Nat) : List Nat → Int → Int → Int × Int × Nat
  | [], phase, count => (phase, count, 0)
  | b :: rest, phase, count =>
    if b ≠ 93 then
      let phase2 := if channel_index b = some chan_idx then count else phase
      let r := phase_scan_l chan_idx rest phase2 (count + 1)
      (r.1, r.2.1, r.2.2 + 1)
    else (phase, count, 0)

/-- Letter scan at an absolute position. -/
def phase_scan (chan_idx : Nat) (bytes : List Nat) (pos : Nat) (phase count : Int) :
    Int × Int × Nat :=
  let r := phase_scan_l chan_idx (bytes.drop pos) phase count
  (r.1, r.2.1, pos + r.2.2)

/-- Macro-name collection loop (bytes at or above the at-sign, up to
seven) on the remaining bytes, returning (name, consumed count). -/
def read_mac_name_l : List Nat → List Nat → List Nat × Nat
  | [], name => (name, 0)
  | b :: rest, name =>
    if 64 ≤ b then
      let name2 := name ++ [b]
      if 7 ≤ name2.length then (name2, 1)
      else
        let r := read_mac_name_l rest name2
        (r.1, r.2 + 1)
    else (name, 0)

/-- Macro-name collection at an absolute position. -/
def read_mac_name (bytes : List Nat) (pos : Nat) (name : List Nat) : List Nat × Nat :=
  let r := read_mac_name_l (bytes.drop pos) name
  (r.1, pos + r.2)

/-- Eight sequential numbers for the portamento parameters. -/
def read_portamento : Nat → List Nat → Nat → (Nat → Int) → (Nat → Int) × Nat
  | 0, _, pos, port => (port, pos)
  | n + 1, bytes, pos, port =>
    let q := read_num bytes pos
    read_portamento n bytes q.2 (Function.update port (8 - (n + 1)) q.1)

/-- `MacroType::from_stat_name` on the collected name bytes. -/
def from_stat_name (n : List Nat) : Option Nat :=
  if n = [118] then some 0
  else if n = [80] then some 1
  else if n = [64] then some 2
  else if n = [64, 71] then some 5
  else if n = [77] then some 6
  else if n = [64, 87] then some 7
  else if n = [64, 87, 77] then some 8
  else if n = [118, 101] then some 9
  else if n = [64, 83] then some 10
  else if n = [64, 83, 76] then some 11
  else none

/-- `MacroType::from_dyn_name` on the collected name bytes. -/
def from_dyn_name (n : List Nat) : Option Nat :=
  if n = [64, 118] then some 0
  else if n = [64, 80] then some 1
  else if n = [64, 64] then some 2
  else if n = [64, 120] then some 3
  else if n = [64, 69, 78] then some 4
  else if n = [64, 77] then some 6
  else if n = [64, 87] then some 7
  else if n = [64, 83] then some 10
  else if n = [64, 83, 76] then some 11
  else if n = [64, 77, 73, 68, 73] then some 12
  else none

end Vgmck

namespace Vgmck

/-- Chip-specific event payload (src/compiler/event.rs). -/
structure ChipEvent where
  event_type : Nat
  value1 : Int
  value2 : Int

/-- Event payload: chip event or raw VGM byte. -/
inductive EventData where
  | Chip (e : ChipEvent)
  | Raw (b : Nat)

/-- A queued event (src/compiler/event.rs). -/
structure Event where
  time : Int
  channel : Int
  data : EventData

/-- Embedding of `EventQueue::last_time`: the BTreeMap's greatest key,
i.e. the maximum time over all inserted events (none when empty). -/
def last_time (events : List Event) : Option Int :=
  events.foldl (fun acc e =>
    match acc with
    | none => some e.time
    | some m => some (max m e.time)) none

/-- Static chip parameters read at the top of `compile_channel`. -/
structure ChipParams where
  chan_idx : Nat
  clock_div : Int
  note_bits : Int
  basic_octave : Int

/-- The Compiler fields touched by `compile_channel`.  Chip drivers are
abstracted by a response oracle: every chip call that returns an
Option<ChipEvent> consumes the next entry of the oracle sequence
(chip_calls counts consumed entries), which models any chip behaviour
along the run; note_value holds whatever the float-based
figure_out_note_values stored.  The event queue is kept in insertion
order; only its multiset of times matters for last_time. -/
structure CompilerState where
  events : List Event
  total_samples : Int
  loop_point : Int
  loop_on : Bool
  chan_loop_point : Int
  framerate : Int
  octave_count : Int
  note_letter : Nat → Int
  note_value : Nat → Int
  macUse : Nat → Int
  fast_forward : Int
  portamento : Nat → Int
  note_off_event : Int
  sample_list : Int
  macEnvData : Nat → Nat → List Int
  macEnvLoopStart : Nat → Nat → Int
  macEnvLoopEnd : Nat → Nat → Int
  chip_calls : Nat

/-- Embedding of `ChannelCompileState` (src/compiler/mod.rs lines
1580-1599). -/
structure ChannelCompileState where
  octave : Int
  tempo : Int
  default_len : Int
  time : Int
  transpose : Int
  detune : Int
  quantize : Int
  current_note : Int
  current_len : Int
  kind : Nat
  old_note : Int
  loop_depth : Int
  loop_start : Nat → Nat
  loop_end : Nat → Nat
  loop_count : Nat → Int
  phase : Int
  phase_count : Int
  phase_counter : Int

/-- Embedding of `ChannelCompileState::new` (the framerate argument is
unused in the source). -/
def ChannelCompileState.init : ChannelCompileState :=
  { octave := 0, tempo := 120, default_len := calc_note_len 120 4 0, time := 0,
    transpose := 0, detune := 0, quantize := 0, current_note := -1, current_len := 0,
    kind := 0, old_note := 0, loop_depth := -1, loop_start := fun _ => 0,
    loop_end := fun _ => 0, loop_count := fun _ => 0, phase := 0, phase_count := 0,
    phase_counter := 0 }

/-- Consume the next oracle response. -/
def chip_call (oracle : Nat → Option ChipEvent) (cs : CompilerState) :
    Option ChipEvent × CompilerState :=
  (oracle cs.chip_calls, { cs with chip_calls := cs.chip_calls + 1 })

/-- Append an event to the queue. -/
def insert_event (cs : CompilerState) (e : Event) : CompilerState :=
  { cs with events := cs.events ++ [e] }

/-- Chip call whose Some result is inserted as a chip event at time t. -/
def chip_call_insert (oracle : Nat → Option ChipEvent) (cs : CompilerState)
    (t : Int) (chan : Nat) : CompilerState :=
  let c := chip_call oracle cs
  match c.1 with
  | some ev => insert_event c.2 ⟨t, chan, EventData.Chip ev⟩
  | none => c.2

/-- A u8 shifted left by two, wrapping. -/
def kindShl2 (k : Nat) : Nat := k * 4 % 256

/-- One pass over the thirteen macro types inside the per-note envelope
loop (src/compiler/mod.rs lines 1389-1447): arpeggio (type 4) re-emits a
note change at the shifted pitch when the entry is nonzero; types with no
macro command (Global 5, ModWaveform 8, VolumeEnv 9, SampleList 11,
Midi 12) hit the catch-all continue, skipping both the call and the index
advance; the rest call set_macro.  The index advances and wraps to the
loop start whenever it reaches loop_end. -/
def step_macro_types (oracle : Nat → Option ChipEvent) (P : ChipParams)
    (note detune t : Int) :
    List Nat → CompilerState → (Nat → Int) → CompilerState × (Nat → Int)
  | [], cs, mi => (cs, mi)
  | i :: rest, cs, mi =>
    if cs.macUse i ≠ -1 ∧ mi i ≠ -1 then
      let env_id := i32_as_usize (cs.macUse i)
      let idx := i32_as_usize (mi i)
      let dataL := cs.macEnvData i env_id
      if idx < dataL.length then
        let step : Option CompilerState :=
          if i = 4 then
            let arp_offset := dataL.getD idx 0
            if arp_offset ≠ 0 then
              let arp_note := note + arp_offset
              let arp_o1 := Int.tdiv arp_note cs.octave_count
              let arp_o := if P.note_bits < 0 then 0
                else if P.clock_div < 0 then arp_o1 - P.basic_octave
                else P.basic_octave - arp_o1
              let arp_n := i32_as_usize (Int.tmod arp_note cs.octave_count)
              let arp_v := if P.clock_div ≠ 0 then
                  shr64s (cs.note_value arp_n) arp_o - detune
                else (arp_n : Int)
              let _ := arp_v
              some (chip_call_insert oracle cs t P.chan_idx)
            else some cs
          else if i = 5 ∨ i = 8 ∨ i = 9 ∨ i = 11 ∨ i = 12 then none
          else some (chip_call_insert oracle cs t P.chan_idx)
        match step with
        | none => step_macro_types oracle P note detune t rest cs mi
        | some cs2 =>
          let new_idx := mi i + 1
          let mi2 := Function.update mi i
            (if cs.macEnvLoopEnd i env_id ≤ new_idx then cs.macEnvLoopStart i env_id
             else new_idx)
          step_macro_types oracle P note detune t rest cs2 mi2
      else step_macro_types oracle P note detune t rest cs mi
    else step_macro_types oracle P note detune t rest cs mi

/-- The fueled per-note envelope while-loop: one macro pass per framerate
tick from the note start up to its sounding end (the loop need not
terminate when the framerate is not positive, hence the fuel). -/
def macro_env_loop (oracle : Nat → Option ChipEvent) (P : ChipParams)
    (note detune : Int) :
    Nat → Int → Int → CompilerState → (Nat → Int) → Option CompilerState
  | 0, _, _, _, _ => none
  | fuel + 1, t, tEnd, cs, mi =>
    if t < tEnd then
      let r := step_macro_types oracle P note detune t
        [0, 1, 2, 3, 4, 5, 6, 7, 8, 9, 10, 11, 12] cs mi
      macro_env_loop oracle P note detune fuel (t + cs.framerate) tEnd r.1 r.2
    else some cs

/-- The time/len/kind update closing every send_note_if_pending path. -/
def close_note (st : ChannelCompileState) : ChannelCompileState :=
  { st with time := st.time + st.current_len, current_len := 0, kind := kindShl2 st.kind }

/-- Embedding of `Compiler::send_note_if_pending` (src/compiler/mod.rs
lines 1273-1469).  The channel always exists when compile_channel runs
(its None early-return is unreachable there). -/
def send_note_if_pending (oracle : Nat → Option ChipEvent) (P : ChipParams) (fuel : Nat)
    (cs : CompilerState) (st : ChannelCompileState) :
    Option (CompilerState × ChannelCompileState) :=
  let st1 := if 0 < st.current_len then
      { st with phase_counter := (st.phase_counter + 1) % (max st.phase_count 1) }
    else st
  if 0 < st.current_len ∧ st1.phase_counter ≠ st1.phase then
    some (cs, close_note st1)
  else if st1.current_len = 0 then
    some (cs, st1)
  else
    let note := st1.current_note
    let dur := st1.current_len
    let detune := st1.detune
    let kind := st1.kind
    let quantize := if kind &&& 1 ≠ 0 then 0 else st1.quantize
    if note = -1 then
      some (chip_call_insert oracle cs st1.time P.chan_idx, close_note st1)
    else if 0 ≤ note then
      let o1 := Int.tdiv note cs.octave_count
      let o := if P.note_bits < 0 then 0
        else if P.clock_div < 0 then o1 - P.basic_octave
        else P.basic_octave - o1
      let n := i32_as_usize (Int.tmod note cs.octave_count)
      let v := if P.clock_div ≠ 0 then shr64s (cs.note_value n) o - detune else (n : Int)
      let _ := v
      let d := max (dur - quantize) 0
      let cs1 := if cs.sample_list ≠ -1 then chip_call_insert oracle cs st1.time P.chan_idx
        else cs
      let cs2 := if cs.note_off_event = 1 ∧ kind &&& 12 = 0 then
          chip_call_insert oracle cs1 st1.time P.chan_idx
        else cs1
      let cs3 := chip_call_insert oracle cs2 st1.time P.chan_idx
      match macro_env_loop oracle P note detune fuel st1.time (st1.time + d) cs3
        (fun _ => 0) with
      | none => none
      | some cs4 =>
        let cs5 := if cs.note_off_event = 0 ∧ kind &&& 3 = 0 then
            chip_call_insert oracle cs4 (st1.time + d) P.chan_idx
          else cs4
        some (cs5, close_note { st1 with old_note := note })
    else
      some (cs, close_note st1)

end Vgmck

namespace Vgmck

/-- Embedding of the dispatch loop of `Compiler::compile_channel`
(src/compiler/mod.rs lines 918-1184), one fuel unit per iteration (the
source loop can be driven arbitrarily long by counted loops).  Branches
appear in source order; a byte matching no branch guard falls through
exactly as the Rust else-if chain does. -/
def compile_channel_loop (oracle : Nat → Option ChipEvent) (P : ChipParams)
    (bytes : List Nat) :
    Nat → Nat → CompilerState → ChannelCompileState →
      Option (CompilerState × ChannelCompileState)
  | 0, _, _, _ => none
  | fuel + 1, pos, cs, st =>
    if pos < bytes.length then
      let b := bytes.getD pos 0
      if 97 ≤ b ∧ b ≤ 106 then
        match send_note_if_pending oracle P fuel cs st with
        | none => none
        | some (cs1, st1) =>
          let cn := st1.octave * cs1.octave_count + cs1.note_letter (b - 97) + st1.transpose
          let r := read_note_params cs1.octave_count bytes (pos + 1) st1.default_len cn
            st1.tempo
          compile_channel_loop oracle P bytes fuel r.2.2 cs1
            { st1 with current_note := r.2.1, current_len := r.1 }
      else if b = 114 then
        match send_note_if_pending oracle P fuel cs st with
        | none => none
        | some (cs1, st1) =>
          let r := read_note_params cs1.octave_count bytes (pos + 1) st1.default_len
            st1.current_note st1.tempo
          compile_channel_loop oracle P bytes fuel r.2.2 cs1
            { st1 with current_len := r.1, current_note := -1 }
      else if b = 119 then
        match send_note_if_pending oracle P fuel cs st with
        | none => none
        | some (cs1, st1) =>
          let r := read_note_params cs1.octave_count bytes (pos + 1) st1.default_len
            st1.current_note st1.tempo
          compile_channel_loop oracle P bytes fuel r.2.2 cs1
            { st1 with current_len := r.1, current_note := -2 }
      else if b = 110 then
        match send_note_if_pending oracle P fuel cs st with
        | none => none
        | some (cs1, st1) =>
          let q := read_num bytes (pos + 1)
          let cn := as_i32 q.1 + st1.transpose
          let r := read_note_params cs1.octave_count bytes q.2 st1.default_len cn st1.tempo
          compile_channel_loop oracle P bytes fuel r.2.2 cs1
            { st1 with current_note := r.2.1, current_len := r.1 }
      else if b = 108 then
        let r := read_len bytes (pos + 1) st.tempo
        compile_channel_loop oracle P bytes fuel r.2 cs { st with default_len := r.1 }
      else if b = 94 then
        let r := read_note_params cs.octave_count bytes (pos + 1) st.default_len 0 st.tempo
        compile_channel_loop oracle P bytes fuel r.2.2 cs
          { st with current_len := st.current_len + r.1 }
      else if b = 38 then
        compile_channel_loop oracle P bytes fuel (pos + 1) cs
          { st with kind := st.kind ||| 1 }
      else if b = 47 then
        compile_channel_loop oracle P bytes fuel (pos + 1) cs
          { st with kind := st.kind ||| 2 }
      else if b = 111 then
        let q := read_num bytes (pos + 1)
        compile_channel_loop oracle P bytes fuel q.2 cs { st with octave := as_i32 q.1 }
      else if b = 62 then
        compile_channel_loop oracle P bytes fuel (pos + 1) cs
          { st with octave := st.octave + 1 }
      else if b = 60 then
        compile_channel_loop oracle P bytes fuel (pos + 1) cs
          { st with octave := st.octave - 1 }
      else if b = 116 then
        let q := read_num bytes (pos + 1)
        compile_channel_loop oracle P bytes fuel q.2 cs { st with tempo := as_i32 q.1 }
      else if b = 68 then
        match send_note_if_pending oracle P fuel cs st with
        | none => none
        | some (cs1, st1) =>
          let q := read_num bytes (pos + 1)
          compile_channel_loop oracle P bytes fuel q.2 cs1 { st1 with detune := q.1 }
      else if b = 75 then
        match send_note_if_pending oracle P fuel cs st with
        | none => none
        | some (cs1, st1) =>
          let q := read_num bytes (pos + 1)
          compile_channel_loop oracle P bytes fuel q.2 cs1
            { st1 with transpose := as_i32 q.1 }
      else if b = 33 then
        some (cs, st)
      else if b = 76 then
        match send_note_if_pending oracle P fuel cs st with
        | none => none
        | some (cs1, st1) =>
          compile_channel_loop oracle P bytes fuel (pos + 1)
            { cs1 with
              chan_loop_point := st1.time
              loop_on := true
              loop_point := st1.time } st1
      else if b = 64 ∧ pos + 1 < bytes.length ∧ bytes.getD (pos + 1) 0 = 113 then
        match send_note_if_pending oracle P fuel cs st with
        | none => none
        | some (cs1, st1) =>
          let q1 := read_num bytes (pos + 2)
          let q2 := read_num bytes q1.2
          compile_channel_loop oracle P bytes fuel q2.2 cs1
            { st1 with quantize := q1.1 * cs1.framerate - q2.1 }
      else if b = 91 ∧ st.loop_depth < 127 then
        let ld := st.loop_depth + 1
        let depth := i32_as_usize ld
        compile_channel_loop oracle P bytes fuel (pos + 1) cs
          { st with
            loop_depth := ld
            loop_start := Function.update st.loop_start depth (pos + 1)
            loop_end := Function.update st.loop_end depth 0
            loop_count := Function.update st.loop_count depth 0 }
      else if b = 93 ∧ 0 ≤ st.loop_depth then
        let depth := i32_as_usize st.loop_depth
        let le2 := Function.update st.loop_end depth pos
        let q := read_num bytes (pos + 1)
        let rep := as_i32 q.1
        let lc2 := Function.update st.loop_count depth (st.loop_count depth + 1)
        if st.loop_count depth + 1 < rep then
          compile_channel_loop oracle P bytes fuel (st.loop_start depth) cs
            { st with loop_end := le2, loop_count := lc2 }
        else
          compile_channel_loop oracle P bytes fuel q.2 cs
            { st with
              loop_end := le2
              loop_count := lc2
              loop_depth := st.loop_depth - 1 }
      else if b = 92 ∧ 0 ≤ st.loop_depth then
        let depth := i32_as_usize st.loop_depth
        if st.loop_end depth ≠ 0 then
          compile_channel_loop oracle P bytes fuel (st.loop_end depth) cs st
        else
          compile_channel_loop oracle P bytes fuel (pos + 1) cs st
      else if b = 63 then
        let pos1 := pos + 1
        if pos1 < bytes.length then
          let cond_ch := bytes.getD pos1 0
          let pos2 := pos1 + 1
          if cond_ch ≠ 46 ∧ channel_index cond_ch ≠ some P.chan_idx then
            compile_channel_loop oracle P bytes fuel (skip_to_question bytes pos2) cs st
          else
            compile_channel_loop oracle P bytes fuel pos2 cs st
        else
          compile_channel_loop oracle P bytes fuel pos1 cs st
      else if b = 69 ∧ pos + 3 < bytes.length ∧ bytes.getD (pos + 1) 0 = 78 ∧
          bytes.getD (pos + 2) 0 = 79 ∧ bytes.getD (pos + 3) 0 = 70 then
        match send_note_if_pending oracle P fuel cs st with
        | none => none
        | some (cs1, st1) =>
          compile_channel_loop oracle P bytes fuel (pos + 4)
            { cs1 with macUse := Function.update cs1.macUse 4 (-1) } st1
      else if b = 69 ∧ pos + 1 < bytes.length ∧ bytes.getD (pos + 1) 0 = 78 then
        match send_note_if_pending oracle P fuel cs st with
        | none => none
        | some (cs1, st1) =>
          let q := read_num bytes (pos + 2)
          compile_channel_loop oracle P bytes fuel q.2
            { cs1 with macUse := Function.update cs1.macUse 4 (as_i32 q.1) } st1
      else if b = 120 then
        match send_note_if_pending oracle P fuel cs st with
        | none => none
        | some (cs1, st1) =>
          let q1 := read_num bytes (pos + 1)
          let q2 := read_num bytes q1.2
          let _ := as_u16 q1.1
          let _ := as_u8 q2.1
          compile_channel_loop oracle P bytes fuel q2.2
            (chip_call_insert oracle cs1 st1.time P.chan_idx) st1
      else if b = 121 then
        match send_note_if_pending oracle P fuel cs st with
        | none => none
        | some (cs1, st1) =>
          let q := read_num bytes (pos + 1)
          compile_channel_loop oracle P bytes fuel q.2
            (insert_event cs1 ⟨st1.time, -1, EventData.Raw (as_u8 q.1)⟩) st1
      else if b = 123 then
        compile_channel_loop oracle P bytes fuel (pos + 1) cs
          { st with default_len := Int.tdiv (st.default_len * 2) 3 }
      else if b = 125 then
        compile_channel_loop oracle P bytes fuel (pos + 1) cs
          { st with default_len := Int.tdiv (st.default_len * 3) 2 }
      else if b = 78 ∧ pos + 2 < bytes.length ∧ bytes.getD (pos + 1) 0 = 79 ∧
          bytes.getD (pos + 2) 0 = 69 then
        match send_note_if_pending oracle P fuel cs st with
        | none => none
        | some (cs1, st1) =>
          let q := read_num bytes (pos + 3)
          compile_channel_loop oracle P bytes fuel q.2
            { cs1 with note_off_event := as_i32 q.1 } st1
      else if b = 64 ∧ pos + 1 < bytes.length ∧ bytes.getD (pos + 1) 0 = 91 then
        match send_note_if_pending oracle P fuel cs st with
        | none => none
        | some (cs1, st1) =>
          let ps := phase_scan P.chan_idx bytes (pos + 2) 0 0
          let pcnt := if 0 < ps.2.1 then ps.2.1 + 1 else ps.2.1
          let pos3 := ps.2.2
          let pos4 := if pos3 < bytes.length ∧ bytes.getD pos3 0 = 93 then pos3 + 1
            else pos3
          compile_channel_loop oracle P bytes fuel pos4 cs1
            { st1 with phase := ps.1, phase_count := pcnt }
      else if b = 64 ∧ pos + 1 < bytes.length ∧ bytes.getD (pos + 1) 0 = 33 then
        match send_note_if_pending oracle P fuel cs st with
        | none => none
        | some (cs1, st1) =>
          let q := read_num bytes (pos + 2)
          compile_channel_loop oracle P bytes fuel q.2
            { cs1 with fast_forward := st1.time - q.1 * cs1.framerate } st1
      else if b = 64 ∧ pos + 1 < bytes.length ∧ bytes.getD (pos + 1) 0 = 119 then
        match send_note_if_pending oracle P fuel cs st with
        | none => none
        | some (cs1, st1) =>
          let q1 := read_num bytes (pos + 2)
          let q2 := read_num bytes q1.2
          compile_channel_loop oracle P bytes fuel q2.2 cs1
            { st1 with time := st1.time + shr64s (q1.1 * cs1.framerate) q2.1 }
      else if b = 64 ∧ pos + 1 < bytes.length ∧ bytes.getD (pos + 1) 0 = 47 then
        let rp := read_portamento 8 bytes (pos + 2) cs.portamento
        compile_channel_loop oracle P bytes fuel rp.2
          { cs with portamento := rp.1 } st
      else if 64 ≤ b then
        match send_note_if_pending oracle P fuel cs st with
        | none => none
        | some (cs1, st1) =>
          let nm := read_mac_name bytes pos []
          let q := read_num bytes nm.2
          let value := as_i16 q.1
          match from_stat_name nm.1 with
          | some mac =>
            let cs2 := { cs1 with macUse := Function.update cs1.macUse mac (-1) }
            compile_channel_loop oracle P bytes fuel q.2
              (chip_call_insert oracle cs2 st1.time P.chan_idx) st1
          | none =>
            match from_dyn_name nm.1 with
            | some mac =>
              compile_channel_loop oracle P bytes fuel q.2
                { cs1 with macUse := Function.update cs1.macUse mac (value % 256) } st1
            | none =>
              compile_channel_loop oracle P bytes fuel q.2 cs1 st1
      else
        compile_channel_loop oracle P bytes fuel (pos + 1) cs st
    else
      some (cs, st)

/-- The update of the compiler total at the end of `compile_channel`
(src/compiler/mod.rs lines 1194-1196). -/
def update_total_samples (cs : CompilerState) (time : Int) : CompilerState :=
  if cs.total_samples < time then { cs with total_samples := time } else cs

/-- Embedding of `Compiler::compile_channel` for a declared channel: the
per-channel macro state is reset, the MML walk runs from position 0, a
final pending note is flushed, and the compiler total_samples is raised
to the channel end time.  (figure_out_note_values runs before the walk;
its float-derived output is the abstract note_value field.) -/
def compile_channel (oracle : Nat → Option ChipEvent) (P : ChipParams) (fuel : Nat)
    (cs : CompilerState) (text : List Nat) :
    Option (CompilerState × ChannelCompileState) :=
  let cs0 := { cs with macUse := fun _ => -1, note_off_event := 0, sample_list := -1 }
  match compile_channel_loop oracle P text fuel 0 cs0 ChannelCompileState.init with
  | none => none
  | some (cs1, st1) =>
    match send_note_if_pending oracle P fuel cs1 st1 with
    | none => none
    | some (cs2, st2) => some (update_total_samples cs2 st2.time, st2)

/-- The 32-bit total-samples value written into the header by
`write_output` (src/compiler/mod.rs line 1545). -/
def header_total_samples (cs : CompilerState) : Nat :=
  as_u32 (cs.total_samples - cs.fast_forward)

end Vgmck

namespace Vgmck

/-- The SN76489 (PSG) chip parameters (src/chips/sn76489.rs lines 64-74,
default clock 3579545). -/
def psg_params : ChipParams := ⟨0, -3579545, 10, 0⟩

/-- The compiler fields as `Compiler::new` initializes them (note_value
stands for whatever the float code computed; it is never read on runs
without notes). -/
def init_compiler_state : CompilerState :=
  { events := [], total_samples := 0, loop_point := 0, loop_on := false,
    chan_loop_point := 0, framerate := 735, octave_count := 12,
    note_letter := fun i => ([9, 11, 0, 2, 4, 5, 7, 0, 0, 0] : List Int).getD i 0,
    note_value := fun _ => 0, macUse := fun _ => -1, fast_forward := 0,
    portamento := fun _ => 0, note_off_event := 0, sample_list := -1,
    macEnvData := fun _ _ => [], macEnvLoopStart := fun _ _ => -1,
    macEnvLoopEnd := fun _ _ => 0, chip_calls := 0 }

/-- C2 counterexample: the two-line score declaring PSG channel A with
MML text y0@w1 (a raw VGM byte at time 0, then a one-frame wait) compiles
successfully, its channel text comes from parse_channel_line as shown,
yet the header total-samples value is 735 while the highest event time
ever enqueued is 0.  The result holds for the real chip as well: this
run makes no chip call at all (the oracle is never consulted). -/
theorem C2_total_samples_counterexample :
    ((parse_channel_line (fun i => if i = 0 then some [] else none) (fun _ => [])
        [65, 32, 121, 48, 64, 119, 49]).toOption.map (fun c => c 0)
      = some (some [32, 121, 48, 64, 119, 49])) ∧
    ((compile_channel (fun _ => none) psg_params 64 init_compiler_state
        [32, 121, 48, 64, 119, 49]).map
      (fun r => (header_total_samples r.1, last_time r.1.events)))
      = some (735, some 0) ∧
    (735 : Nat) ≠ 0 := by
  refine ⟨rfl, rfl, by norm_num⟩

theorem update_total_samples_spec (cs : CompilerState) (t : Int) :
    (update_total_samples cs t).total_samples = max cs.total_samples t ∧
      (update_total_samples cs t).fast_forward = cs.fast_forward := by
  unfold update_total_samples
  split
  · refine ⟨?_, rfl⟩
    show t = max cs.total_samples t
    omega
  · refine ⟨?_, rfl⟩
    show cs.total_samples = max cs.total_samples t
    omega

/-- C2 amended: for every run of the channel compiler that returns, the
compiler total_samples afterwards is the maximum of its previous value
and the final channel time (the channel end time, src/compiler/mod.rs
lines 1194-1196), and the 32-bit header value is that total minus
fast_forward, cast to u32 (line 1545) — not the highest event time of
the queue, from which it can differ (see the counterexample). -/
theorem C2_total_samples_amended (oracle : Nat → Option ChipEvent) (P : ChipParams)
    (fuel : Nat) (cs : CompilerState) (text : List Nat)
    (cs2 : CompilerState) (st2 : ChannelCompileState)
    (h : compile_channel oracle P fuel cs text = some (cs2, st2)) :
    ∃ csMid : CompilerState,
      cs2 = update_total_samples csMid st2.time ∧
      cs2.total_samples = max csMid.total_samples st2.time ∧
      header_total_samples cs2 =
        as_u32 (max csMid.total_samples st2.time - csMid.fast_forward) := by
  unfold compile_channel at h
  dsimp only at h
  split at h
  · exact Option.noConfusion h
  rename_i cs1 st1 hl
  split at h
  · exact Option.noConfusion h
  rename_i csMid stMid hs
  have hpair := Option.some.inj h
  have hcs2 : cs2 = update_total_samples csMid stMid.time :=
    (congrArg Prod.fst hpair).symm
  have hst2 : st2 = stMid := (congrArg Prod.snd hpair).symm
  refine ⟨csMid, by rw [hcs2, hst2], ?_, ?_⟩
  · rw [hcs2, hst2]
    exact (update_total_samples_spec csMid stMid.time).1
  · rw [hcs2, hst2]
    unfold header_total_samples
    rw [(update_total_samples_spec csMid stMid.time).1,
      (update_total_samples_spec csMid stMid.time).2]

/-- Witness: the amended theorem applied to the concrete y0@w1 run of the
counterexample (the compile result is projected out of the option so the
hypothesis is discharged by rfl). -/
theorem C2_total_samples_amended_witness :
    ∃ csMid : CompilerState,
      ((compile_channel (fun _ => none) psg_params 64 init_compiler_state
          [32, 121, 48, 64, 119, 49]).getD
        (init_compiler_state, ChannelCompileState.init)).1 =
          update_total_samples csMid
            ((compile_channel (fun _ => none) psg_params 64 init_compiler_state
              [32, 121, 48, 64, 119, 49]).getD
            (init_compiler_state, ChannelCompileState.init)).2.time ∧
      ((compile_channel (fun _ => none) psg_params 64 init_compiler_state
          [32, 121, 48, 64, 119, 49]).getD
        (init_compiler_state, ChannelCompileState.init)).1.total_samples =
          max csMid.total_samples
            ((compile_channel (fun _ => none) psg_params 64 init_compiler_state
              [32, 121, 48, 64, 119, 49]).getD
            (init_compiler_state, ChannelCompileState.init)).2.time ∧
      header_total_samples
        ((compile_channel (fun _ => none) psg_params 64 init_compiler_state
            [32, 121, 48, 64, 119, 49]).getD
          (init_compiler_state, ChannelCompileState.init)).1 =
        as_u32 (max csMid.total_samples
            ((compile_channel (fun _ => none) psg_params 64 init_compiler_state
              [32, 121, 48, 64, 119, 49]).getD
            (init_compiler_state, ChannelCompileState.init)).2.time -
          csMid.fast_forward) :=
  C2_total_samples_amended (fun _ => none) psg_params 64 init_compiler_state
    [32, 121, 48, 64, 119, 49] _ _ rfl

end Vgmck
